import Mathlib

/-!
# ODoH client (`control/odoh.go`): URL construction and the query/answer exchange

A shallow embedding of `src/control/odoh.go`.

* Go `string` / `[]byte` values are lists of bytes (`GoString`).
* The functions of Go's standard `net/url` package that `buildURL` and
  `buildOdohProxyURL` call (`url.Parse`, `(*URL).Query`, `Values.Get`,
  `Values.Set`, `Values.Encode`) are transcribed in namespace `NetUrl`.
* The HTTP client, the ODoH library and the DNS library are external
  capabilities; they are the fields of the record `Lib`.
* A Go call either returns, terminates the process (`log.Fatalf`) or stops with
  a run-time error (nil dereference, index out of range): type `Outcome`.
-/

namespace ODoH

/-- A Go `string` (or `[]byte`): its sequence of bytes, each in `0..255`. -/
abbrev GoString := List Nat

/-- UTF-8 bytes of one character. -/
def utf8Char (c : Char) : GoString :=
  let n := c.toNat
  if n < 0x80 then [n]
  else if n < 0x800 then [0xC0 + n / 64, 0x80 + n % 64]
  else if n < 0x10000 then [0xE0 + n / 4096, 0x80 + n / 64 % 64, 0x80 + n % 64]
  else [0xF0 + n / 262144, 0x80 + n / 4096 % 64, 0x80 + n / 64 % 64, 0x80 + n % 64]

/-- UTF-8 bytes of a list of characters. -/
def utf8Chars : List Char → GoString
  | [] => []
  | c :: cs => utf8Char c ++ utf8Chars cs

/-- The Go string written as the literal `s`. -/
def str (s : String) : GoString := utf8Chars s.data

deriving instance DecidableEq for Except

/-! ## Package `strings` -/

namespace Strings

/-- `strings.Cut(s, sep)` for a one-byte separator. -/
def cut (s : GoString) (sep : Nat) : GoString × GoString × Bool :=
  match s with
  | [] => ([], [], false)
  | c :: t =>
    if c = sep then ([], t, true)
    else let r := cut t sep; (c :: r.1, r.2.1, r.2.2)

/-- `strings.Index(s, sep)` for a one-byte separator; `none` stands for `-1`. -/
def indexByte (s : GoString) (sep : Nat) : Option Nat :=
  match s with
  | [] => none
  | c :: t => if c = sep then some 0 else (indexByte t sep).map (· + 1)

/-- `strings.LastIndex(s, sep)` for a one-byte separator; `none` stands for `-1`. -/
def lastIndexByte (s : GoString) (sep : Nat) : Option Nat :=
  match s with
  | [] => none
  | c :: t =>
    match lastIndexByte t sep with
    | some i => some (i + 1)
    | none => if c = sep then some 0 else none

/-- `strings.Index(s, substr)`; `none` stands for `-1`. -/
def index (s substr : GoString) : Option Nat :=
  if substr.isPrefixOf s then some 0
  else match s with
    | [] => none
    | _ :: t => (index t substr).map (· + 1)

/-- `strings.Contains(s, sep)` for a one-byte separator. -/
def containsByte (s : GoString) (sep : Nat) : Bool := s.any (· == sep)

/-- `strings.HasPrefix(s, prefix)`. -/
def hasPrefix (s pre : GoString) : Bool := pre.isPrefixOf s

/-- `strings.HasSuffix(s, suffix)`. -/
def hasSuffix (s suf : GoString) : Bool := suf.isSuffixOf s

/-- `strings.Count(s, sep)` for a one-byte separator. -/
def countByte (s : GoString) (sep : Nat) : Nat := s.count sep

/-- `strings.ToLower` on one ASCII byte. -/
def toLowerByte (c : Nat) : Nat := if 65 ≤ c ∧ c ≤ 90 then c + 32 else c

/-- `strings.ToLower` (bytes outside `A..Z` are kept; schemes are ASCII). -/
def toLower (s : GoString) : GoString := s.map toLowerByte

/-- The pieces of `s` between the occurrences of the byte `sep`. -/
def splitByte (sep : Nat) : GoString → List GoString
  | [] => [[]]
  | c :: t =>
    if c = sep then [] :: splitByte sep t
    else match splitByte sep t with
      | seg :: segs => (c :: seg) :: segs
      | [] => [[c]]

/-- Byte-wise lexicographic `a < b`, the order of `sort.Strings`. -/
def less : GoString → GoString → Bool
  | [], [] => false
  | [], _ :: _ => true
  | _ :: _, [] => false
  | a :: as, b :: bs => if a < b then true else if b < a then false else less as bs

end Strings

/-! ## Package `net/url`

The functions of Go's standard library that `odoh.go` calls for its URLs,
transcribed from `net/url/url.go` (Go 1.19/1.20): `Parse` with `parse`,
`getScheme`, `parseAuthority`, `parseHost`, `setPath`, `setFragment`,
`unescape`, `escape`, `shouldEscape`; `ParseQuery`, `(*URL).Query`,
`Values.Get`, `Values.Set`, `Values.Encode`. -/

namespace NetUrl

/-- The `encoding` modes of `net/url`. -/
inductive Encoding
  | encodePath
  | encodePathSegment
  | encodeHost
  | encodeZone
  | encodeUserPassword
  | encodeQueryComponent
  | encodeFragment
  deriving DecidableEq, Repr

open Encoding

/-- The errors `url.Parse` reports. -/
inductive UrlError
  /-- "net/url: invalid control character in URL" -/
  | controlCharacter
  /-- "missing protocol scheme" -/
  | missingScheme
  /-- "first path segment in URL cannot contain colon" -/
  | colonInFirstSegment
  /-- `EscapeError(s)`: "invalid URL escape" -/
  | escapeError (s : GoString)
  /-- `InvalidHostError(s)`: "invalid character in host name" -/
  | invalidHost (s : GoString)
  /-- "missing ']' in host" -/
  | missingBracket
  /-- "invalid port after host" -/
  | invalidPort (colonPort : GoString)
  /-- "net/url: invalid userinfo" -/
  | invalidUserinfo
  /-- "invalid semicolon separator in query" -/
  | invalidSemicolon
  deriving DecidableEq, Repr

/-- Type `url.Userinfo`. -/
structure Userinfo where
  username : GoString
  password : GoString
  passwordSet : Bool
  deriving DecidableEq, Repr

/-- Type `url.URL`. -/
structure URL where
  Scheme : GoString := []
  Opaque : GoString := []
  User : Option Userinfo := none
  Host : GoString := []
  Path : GoString := []
  RawPath : GoString := []
  OmitHost : Bool := false
  ForceQuery : Bool := false
  RawQuery : GoString := []
  Fragment : GoString := []
  RawFragment : GoString := []
  deriving DecidableEq, Repr

/-- `ishex(c)`. -/
def ishex (c : Nat) : Bool :=
  (48 ≤ c && c ≤ 57) || (97 ≤ c && c ≤ 102) || (65 ≤ c && c ≤ 70)

/-- `unhex(c)`. -/
def unhex (c : Nat) : Nat :=
  if 48 ≤ c ∧ c ≤ 57 then c - 48
  else if 97 ≤ c ∧ c ≤ 102 then c - 97 + 10
  else if 65 ≤ c ∧ c ≤ 70 then c - 65 + 10
  else 0

/-- `upperhex[n]`, the digit of `"0123456789ABCDEF"` at index `n`. -/
def upperhex (n : Nat) : Nat := if n < 10 then 48 + n else 55 + n

/-- ASCII letter or digit. -/
def isAlnum (c : Nat) : Bool :=
  (97 ≤ c && c ≤ 122) || (65 ≤ c && c ≤ 90) || (48 ≤ c && c ≤ 57)

/-- The sub-delimiters, colon, brackets, angle brackets and double quote: the
bytes besides letters, digits and marks that a host may hold unescaped. -/
def hostSubDelims : List Nat :=
  [33, 36, 38, 39, 40, 41, 42, 43, 44, 59, 61, 58, 91, 93, 60, 62, 34]

/-- The reserved bytes `$ & + , / : ; = ? @`. -/
def reservedBytes : List Nat := [36, 38, 43, 44, 47, 58, 59, 61, 63, 64]

/-- `shouldEscape(c, mode)`: whether the byte must be written as `%XX` in the
given part of a URL. -/
def shouldEscape (c : Nat) (mode : Encoding) : Bool :=
  if isAlnum c then false
  else if (mode = encodeHost ∨ mode = encodeZone) ∧ c ∈ hostSubDelims then false
  else if c = 45 ∨ c = 95 ∨ c = 46 ∨ c = 126 then false
  else if c ∈ reservedBytes then
    match mode with
    | encodePath => c == 63
    | encodePathSegment => c == 47 || c == 59 || c == 44 || c == 63
    | encodeUserPassword => c == 64 || c == 47 || c == 63 || c == 58
    | encodeQueryComponent => true
    | encodeFragment => false
    | _ => true
  else if mode = encodeFragment ∧ (c = 33 ∨ c = 40 ∨ c = 41 ∨ c = 42) then false
  else true

/-- First loop of `unescape`: the well-formedness check. `none` when the string
passes, the error otherwise. (Go skips the host check for a `+`; a host may
hold a `+`, so the check passes it here as well.) -/
def unescapeCheck (mode : Encoding) : GoString → Option UrlError
  | [] => none
  | c :: t =>
    if c = 37 then
      match t with
      | a :: b :: rest =>
        if !(ishex a && ishex b) then some (.escapeError [37, a, b])
        else if mode = encodeHost ∧ unhex a < 8 ∧ [37, a, b] ≠ [37, 50, 53] then
          some (.escapeError [37, a, b])
        else if mode = encodeZone ∧ [37, a, b] ≠ [37, 50, 53] ∧ unhex a * 16 + unhex b ≠ 32
            ∧ shouldEscape (unhex a * 16 + unhex b) encodeHost then
          some (.escapeError [37, a, b])
        else unescapeCheck mode rest
      | _ => some (.escapeError (c :: t))
    else if (mode = encodeHost ∨ mode = encodeZone) ∧ c < 128 ∧ shouldEscape c mode then
      some (.invalidHost [c])
    else unescapeCheck mode t

/-- Second loop of `unescape`: the decoding of a string that passed the check. -/
def unescapeDecode (mode : Encoding) : GoString → GoString
  | [] => []
  | c :: t =>
    if c = 37 then
      match t with
      | a :: b :: rest => (unhex a * 16 + unhex b) :: unescapeDecode mode rest
      | _ => []
    else if c = 43 ∧ mode = encodeQueryComponent then 32 :: unescapeDecode mode t
    else c :: unescapeDecode mode t

/-- `unescape(s, mode)`. (Go returns `s` itself when it holds no `%` and no
decodable `+`; decoding such a string gives the same bytes.) -/
def unescape (s : GoString) (mode : Encoding) : Except UrlError GoString :=
  match unescapeCheck mode s with
  | some e => .error e
  | none => .ok (unescapeDecode mode s)

/-- `escape(s, mode)`. (Go returns `s` itself when no byte needs escaping.) -/
def escape (s : GoString) (mode : Encoding) : GoString :=
  match s with
  | [] => []
  | c :: t =>
    if shouldEscape c mode then
      if c = 32 ∧ mode = encodeQueryComponent then 43 :: escape t mode
      else 37 :: upperhex (c / 16) :: upperhex (c % 16) :: escape t mode
    else c :: escape t mode

/-- `QueryEscape(s)`. -/
def QueryEscape (s : GoString) : GoString := escape s encodeQueryComponent

/-- `QueryUnescape(s)`. -/
def QueryUnescape (s : GoString) : Except UrlError GoString := unescape s encodeQueryComponent

/-- `stringContainsCTLByte(s)`. -/
def stringContainsCTLByte (s : GoString) : Bool := s.any (fun b => b < 32 || b == 127)

/-- Loop of `getScheme`, at index `i` of the URL, `s` being what is left of
it: the length of the scheme when a `:` ends one. -/
def getSchemeLoop (i : Nat) : GoString → Except UrlError (Option Nat)
  | [] => .ok none
  | c :: t =>
    if (97 ≤ c ∧ c ≤ 122) ∨ (65 ≤ c ∧ c ≤ 90) then getSchemeLoop (i + 1) t
    else if (48 ≤ c ∧ c ≤ 57) ∨ c = 43 ∨ c = 45 ∨ c = 46 then
      if i = 0 then .ok none else getSchemeLoop (i + 1) t
    else if c = 58 then
      if i = 0 then .error .missingScheme else .ok (some i)
    else .ok none

/-- `getScheme(rawURL)`: the scheme and what follows its `:`; without a
scheme, the empty scheme and the whole URL. -/
def getScheme (rawURL : GoString) : Except UrlError (GoString × GoString) :=
  match getSchemeLoop 0 rawURL with
  | .error e => .error e
  | .ok none => .ok ([], rawURL)
  | .ok (some i) => .ok (rawURL.take i, rawURL.drop (i + 1))

/-- `validOptionalPort(port)`. -/
def validOptionalPort (port : GoString) : Bool :=
  match port with
  | [] => true
  | c :: t => c == 58 && t.all (fun b => 48 ≤ b && b ≤ 57)

/-- The punctuation bytes allowed in user info besides letters and digits:
marks, sub-delimiters, colon, percent and at sign. -/
def userinfoBytes : List Nat :=
  [45, 46, 95, 58, 126, 33, 36, 38, 39, 40, 41, 42, 43, 44, 59, 61, 37, 64]

/-- `validUserinfo(s)`. (Go ranges over runes; a rune outside ASCII is
refused, as is every byte of its encoding here.) -/
def validUserinfo (s : GoString) : Bool := s.all (fun r => isAlnum r || r ∈ userinfoBytes)

/-- `parseHost(host)`. -/
def parseHost (host : GoString) : Except UrlError GoString :=
  if Strings.hasPrefix host [91] then
    match Strings.lastIndexByte host 93 with
    | none => .error .missingBracket
    | some i =>
      let colonPort := host.drop (i + 1)
      if !validOptionalPort colonPort then .error (.invalidPort colonPort)
      else
        match Strings.index (host.take i) [37, 50, 53] with
        | some zone =>
          match unescape (host.take zone) encodeHost with
          | .error e => .error e
          | .ok host1 =>
            match unescape ((host.take i).drop zone) encodeZone with
            | .error e => .error e
            | .ok host2 =>
              match unescape (host.drop i) encodeHost with
              | .error e => .error e
              | .ok host3 => .ok (host1 ++ host2 ++ host3)
        | none => unescape host encodeHost
  else
    match Strings.lastIndexByte host 58 with
    | some i =>
      let colonPort := host.drop i
      if !validOptionalPort colonPort then .error (.invalidPort colonPort)
      else unescape host encodeHost
    | none => unescape host encodeHost

/-- `parseAuthority(authority)`. -/
def parseAuthority (authority : GoString) : Except UrlError (Option Userinfo × GoString) :=
  match Strings.lastIndexByte authority 64 with
  | none =>
    match parseHost authority with
    | .error e => .error e
    | .ok host => .ok (none, host)
  | some i =>
    match parseHost (authority.drop (i + 1)) with
    | .error e => .error e
    | .ok host =>
      let userinfo := authority.take i
      if !validUserinfo userinfo then .error .invalidUserinfo
      else if !Strings.containsByte userinfo 58 then
        match unescape userinfo encodeUserPassword with
        | .error e => .error e
        | .ok u => .ok (some ⟨u, [], false⟩, host)
      else
        let c := Strings.cut userinfo 58
        match unescape c.1 encodeUserPassword with
        | .error e => .error e
        | .ok username =>
          match unescape c.2.1 encodeUserPassword with
          | .error e => .error e
          | .ok password => .ok (some ⟨username, password, true⟩, host)

/-- `(*URL).setPath(p)`. -/
def setPath (u : URL) (p : GoString) : Except UrlError URL :=
  match unescape p encodePath with
  | .error e => .error e
  | .ok path =>
    .ok { u with Path := path, RawPath := if p = escape path encodePath then [] else p }

/-- `(*URL).setFragment(f)`. -/
def setFragment (u : URL) (f : GoString) : Except UrlError URL :=
  match unescape f encodeFragment with
  | .error e => .error e
  | .ok frag =>
    .ok { u with Fragment := frag,
                 RawFragment := if f = escape frag encodeFragment then [] else f }

/-- `parse(rawURL, viaRequest)` for `viaRequest = false`, the way `url.Parse`
calls it. -/
def parse (rawURL : GoString) : Except UrlError URL :=
  if stringContainsCTLByte rawURL then .error .controlCharacter
  else if rawURL = [42] then .ok { Path := [42] }
  else
    match getScheme rawURL with
    | .error e => .error e
    | .ok (scheme, rest0) =>
      let scheme := Strings.toLower scheme
      let force := Strings.hasSuffix rest0 [63] && Strings.countByte rest0 63 == 1
      let rest := if force then rest0.take (rest0.length - 1) else (Strings.cut rest0 63).1
      let rawQuery := if force then [] else (Strings.cut rest0 63).2.1
      let url : URL := { Scheme := scheme, ForceQuery := force, RawQuery := rawQuery }
      if !Strings.hasPrefix rest [47] && scheme ≠ [] then .ok { url with Opaque := rest }
      else if !Strings.hasPrefix rest [47]
          && Strings.containsByte (Strings.cut rest 47).1 58 then
        .error .colonInFirstSegment
      else if (scheme ≠ [] || !Strings.hasPrefix rest [47, 47, 47])
          && Strings.hasPrefix rest [47, 47] then
        let authority0 := rest.drop 2
        let authority :=
          match Strings.indexByte authority0 47 with
          | some i => authority0.take i
          | none => authority0
        let rest :=
          match Strings.indexByte authority0 47 with
          | some i => authority0.drop i
          | none => []
        match parseAuthority authority with
        | .error e => .error e
        | .ok (user, host) => setPath { url with User := user, Host := host } rest
      else if scheme ≠ [] && Strings.hasPrefix rest [47] then
        setPath { url with OmitHost := true } rest
      else setPath url rest

/-- `url.Parse(rawURL)`. -/
def Parse (rawURL : GoString) : Except UrlError URL :=
  let c := Strings.cut rawURL 35
  match parse c.1 with
  | .error e => .error e
  | .ok url => if c.2.1 = [] then .ok url else setFragment url c.2.1

/-- Type `url.Values`, a `map[string][]string`: the entries of the map, one
per key. `Encode` sorts the keys, so the order kept here is not observable. -/
abbrev Values := List (GoString × List GoString)

namespace Values

/-- The map read `v[key]`: the values stored under `key`, `nil` when absent. -/
def lookup (v : Values) (key : GoString) : List GoString :=
  match v with
  | [] => []
  | (k, vs) :: t => if k = key then vs else lookup t key

/-- The map write `v[key] = vs`. -/
def assign (v : Values) (key : GoString) (vs : List GoString) : Values :=
  match v with
  | [] => [(key, vs)]
  | (k, old) :: t => if k = key then (k, vs) :: t else (k, old) :: assign t key vs

/-- `Values.Get(key)`: the first value stored under `key`, `""` when there is
none. -/
def Get (v : Values) (key : GoString) : GoString :=
  match lookup v key with
  | [] => []
  | x :: _ => x

/-- `Values.Set(key, value)`: `v[key] = []string{value}`. -/
def Set (v : Values) (key value : GoString) : Values := assign v key [value]

/-- `sort.Strings`: insertion of one key into a sorted list of keys. -/
def insertKey (k : GoString) : List GoString → List GoString
  | [] => [k]
  | x :: xs => if Strings.less x k then x :: insertKey k xs else k :: x :: xs

/-- `sort.Strings(keys)`. -/
def sortKeys : List GoString → List GoString
  | [] => []
  | k :: ks => insertKey k (sortKeys ks)

/-- The `key=value` pairs `Encode` writes for one key, all escaped. -/
def encodeKey (key : GoString) (vs : List GoString) : List GoString :=
  vs.map (fun value => QueryEscape key ++ [61] ++ QueryEscape value)

/-- Pairs of all the keys, in the order given. -/
def encodePairs (v : Values) : List GoString → List GoString
  | [] => []
  | k :: ks => encodeKey k (lookup v k) ++ encodePairs v ks

/-- The pairs joined by `&`. -/
def joinAmp : List GoString → GoString
  | [] => []
  | [p] => p
  | p :: q :: ps => p ++ [38] ++ joinAmp (q :: ps)

/-- `Values.Encode()`: the `key=value` pairs in the order of the sorted keys,
each part query-escaped, joined by `&`. -/
def Encode (v : Values) : GoString :=
  joinAmp (encodePairs v (sortKeys (v.map Prod.fst)))

end Values

/-- One turn of the loop of `parseQuery`, for the piece `key` cut off before
the next `&`: the map and the first error so far. -/
def parseQueryStep (m : Values × Option UrlError) (key : GoString) :
    Values × Option UrlError :=
  if Strings.containsByte key 59 then (m.1, some .invalidSemicolon)
  else if key = [] then m
  else
    let c := Strings.cut key 61
    match QueryUnescape c.1 with
    | .error e1 => (m.1, if m.2 = none then some e1 else m.2)
    | .ok k =>
      match QueryUnescape c.2.1 with
      | .error e1 => (m.1, if m.2 = none then some e1 else m.2)
      | .ok value => (Values.assign m.1 k (Values.lookup m.1 k ++ [value]), m.2)

/-- `ParseQuery(query)`: the loop `for query != ""` cuts the query at each
`&`; it is run here over the pieces between the `&`. -/
def ParseQuery (query : GoString) : Values × Option UrlError :=
  (Strings.splitByte 38 query).foldl parseQueryStep ([], none)

/-- `(*URL).Query()`: `ParseQuery(u.RawQuery)` with the error dropped. -/
def URL.Query (u : URL) : Values := (ParseQuery u.RawQuery).1

end NetUrl

open NetUrl

/-! ## The constants of `odoh.go` -/

/-- `OBLIVIOUS_DOH_CONTENT_TYPE`. -/
def OBLIVIOUS_DOH_CONTENT_TYPE : GoString := str "application/oblivious-dns-message"

/-- `ODOH_CONFIG_WELLKNOWN_PATH`. -/
def ODOH_CONFIG_WELLKNOWN_PATH : GoString := str "/.well-known/odohconfigs"

/-- `ODOH_DEFAULT_PATH`. -/
def ODOH_DEFAULT_PATH : GoString := str "/dns-query"

/-- `ODOH_PROXY_DEFAULT_PATH`. -/
def ODOH_PROXY_DEFAULT_PATH : GoString := str "/proxy"

/-! ## How a call ends -/

/-- The run-time errors of Go that this code can hit. -/
inductive Crash
  /-- A field of a nil pointer is read. -/
  | nilDereference
  /-- A slice is indexed past its length. -/
  | indexOutOfRange
  deriving DecidableEq, Repr

/-- How a Go call ends: it returns `a`, or `log.Fatalf` terminates the process
(with the error it logs), or a run-time error stops the goroutine. -/
inductive Outcome (α : Type) where
  | ret (a : α)
  | fatal (e : UrlError)
  | crash (c : Crash)
  deriving DecidableEq, Repr

/-- Sequencing: the rest of the body runs only when the call returned. -/
def Outcome.bind {α β : Type} (x : Outcome α) (f : α → Outcome β) : Outcome β :=
  match x with
  | .ret a => f a
  | .fatal e => .fatal e
  | .crash c => .crash c

/-! ## URL construction -/

/-- `buildURL(s, defaultPath)`. -/
def buildURL (s defaultPath : GoString) : Outcome URL :=
  match Parse (str "https://" ++ s) with
  | .error e => .fatal e
  | .ok u => .ret (if u.Path = [] then { u with Path := defaultPath } else u)

/-- `buildOdohTargetURL(s)`. -/
def buildOdohTargetURL (s : GoString) : Outcome URL := buildURL s ODOH_DEFAULT_PATH

/-- `buildOdohProxyURL(proxy, target)`. -/
def buildOdohProxyURL (proxy target : GoString) : Outcome URL :=
  (buildURL proxy ODOH_PROXY_DEFAULT_PATH).bind fun p =>
  (buildOdohTargetURL target).bind fun t =>
    let qry := p.Query
    let qry := if Values.Get qry (str "targethost") = [] then
        Values.Set qry (str "targethost") t.Host else qry
    let qry := if Values.Get qry (str "targetpath") = [] then
        Values.Set qry (str "targetpath") t.Path else qry
    .ret { p with RawQuery := Values.Encode qry }

/-! ## The libraries: HTTP, ODoH, DNS -/

/-- A Go `error` value: the sentinel `http.ErrUseLastResponse`, a value made
by `fmt.Errorf` (given by its message), or a value made by a library. -/
inductive GoError (E : Type) where
  | ErrUseLastResponse
  | errorf (msg : GoString)
  | lib (e : E)
  deriving DecidableEq, Repr

/-- Type `http.Header`, a `map[string][]string` under canonical keys. -/
abbrev Header := List (GoString × List GoString)

/-- `Header.Get(key)` for a key in canonical form, as `"Content-Type"` is: the
first value stored under it, `""` when there is none. -/
def Header.Get (h : Header) (key : GoString) : GoString := Values.Get h key

/-- `Header.Set(key, value)` for a key in canonical form. -/
def Header.Set (h : Header) (key value : GoString) : Header := Values.Set h key value

/-- Type `http.Request`: the fields this code reads or writes. -/
structure Request where
  Method : GoString
  URL : URL
  Host : GoString
  Header : Header
  Body : GoString
  deriving DecidableEq, Repr

/-- Type `http.Response`: the status code, the header, and what
`io.ReadAll(resp.Body)` yields (the bytes read and the error of the read). -/
structure Response (E : Type) where
  StatusCode : Nat
  Header : Header
  Body : GoString × Option (GoError E)
  deriving DecidableEq

/-- Type `http.Client`: its redirect policy, the one field this code writes. -/
structure Client (E : Type) where
  CheckRedirect : Option (Request → List Request → Option (GoError E))

/-- Type `odoh.ObliviousDoHConfig`. -/
structure ObliviousDoHConfig (Contents : Type) where
  Version : Nat
  Contents : Contents

/-- Type `odoh.ObliviousDoHConfigs`. -/
structure ObliviousDoHConfigs (Contents : Type) where
  Configs : List (ObliviousDoHConfig Contents)

/-- The library calls of `odoh.go`, as the capabilities it is given. The types
`Msg` (`odoh.ObliviousDNSMessage`), `Ctx` (`odoh.QueryContext`), `Contents`
(`odoh.ObliviousDoHConfigContents`), `Qry` (`odoh.ObliviousDNSQuery`) and `Dns`
(`dns.Msg`) are those of the libraries; a call returns what the Go call
returns, an error included (`none` is `nil`). -/
structure Lib (Msg Ctx Contents Qry Dns E : Type) where
  /-- `odoh.ObliviousDNSMessage{}` -/
  zeroMsg : Msg
  /-- `odoh.QueryContext{}` -/
  zeroCtx : Ctx
  /-- `odoh.CreateObliviousDNSQuery(dnsMessage, paddingBytes)` -/
  CreateObliviousDNSQuery : GoString → Nat → Qry
  /-- `publicKey.EncryptQuery(query)` -/
  EncryptQuery : Contents → Qry → Msg × Ctx × Option (GoError E)
  /-- `message.Marshal()` -/
  Marshal : Msg → GoString
  /-- `odoh.UnmarshalDNSMessage(data)` -/
  UnmarshalDNSMessage : GoString → Msg × Option (GoError E)
  /-- `queryContext.OpenAnswer(message)` -/
  OpenAnswer : Ctx → Msg → GoString × Option (GoError E)
  /-- `msg.Unpack(data)` on a fresh `dns.Msg`: the message as left, and the error -/
  Unpack : GoString → Dns × Option (GoError E)
  /-- `u.String()` -/
  urlString : URL → GoString
  /-- `http.NewRequest(method, url, bytes.NewBuffer(body))` -/
  NewRequest : GoString → GoString → GoString → Option Request × Option (GoError E)
  /-- `client.Do(req)` -/
  clientDo : Client E → Request → Option (Response E) × Option (GoError E)

/-- A library call that acts on the world outside, as it is logged. -/
inductive Event (Msg Ctx Contents E : Type) where
  | EncryptQuery (publicKey : Contents) (dnsMessage : GoString)
  | clientDo (client : Client E) (req : Request)
  | ReadAll
  | UnmarshalDNSMessage (data : GoString)
  | OpenAnswer (queryContext : Ctx) (message : Msg)
  | Unpack (data : GoString)

/-- What a call acts on: the `*http.Client` it was handed, as it is now, and
the log of the library calls made, oldest first. (What `fmt.Println` writes
is not modelled; reading its arguments is.) -/
structure World (Msg Ctx Contents E : Type) where
  client : Client E
  trace : List (Event Msg Ctx Contents E)

/-- The world after one more library call. -/
def World.log {Msg Ctx Contents E : Type} (w : World Msg Ctx Contents E)
    (ev : Event Msg Ctx Contents E) : World Msg Ctx Contents E :=
  { w with trace := w.trace ++ [ev] }

section Code

variable {Msg Ctx Contents Qry Dns E : Type}

/-- `http.MethodPost`. -/
def MethodPost : GoString := str "POST"

/-- `parseDnsResponse(data)`. -/
def parseDnsResponse (L : Lib Msg Ctx Contents Qry Dns E) (data : GoString) :
    Dns × Option (GoError E) :=
  L.Unpack data

/-- `createOdohQuestion(dnsMessage, publicKey)`. -/
def createOdohQuestion (L : Lib Msg Ctx Contents Qry Dns E) (dnsMessage : GoString)
    (publicKey : Contents) : Msg × Ctx × Option (GoError E) :=
  let odohQuery := L.CreateObliviousDNSQuery dnsMessage 0
  match L.EncryptQuery publicKey odohQuery with
  | (_, _, some err) => (L.zeroMsg, L.zeroCtx, some err)
  | (odnsMessage, queryContext, none) => (odnsMessage, queryContext, none)

/-- `prepareHttpRequest(serializedBody, useProxy, target, proxy)`. The request
is read right after `http.NewRequest` (`req.URL.String()`), before the error is
looked at. -/
def prepareHttpRequest (L : Lib Msg Ctx Contents Qry Dns E) (serializedBody : GoString)
    (useProxy : Bool) (target proxy : GoString) :
    Outcome (Option Request × Option (GoError E)) :=
  (if useProxy then buildOdohProxyURL proxy target else buildOdohTargetURL target).bind
    fun u =>
      match L.NewRequest MethodPost (L.urlString u) serializedBody with
      | (none, _) => .crash .nilDereference
      | (some req, err) =>
        let header := Header.Set req.Header (str "Content-Type") OBLIVIOUS_DOH_CONTENT_TYPE
        let header := Header.Set header (str "Accept") OBLIVIOUS_DOH_CONTENT_TYPE
        .ret (some { req with Header := header }, err)

/-- The redirect policy `resolveObliviousQuery` installs: the function literal
assigned to `client.CheckRedirect`. -/
def neverFollow : Request → List Request → Option (GoError E) :=
  fun _req _via => some .ErrUseLastResponse

/-- The error of a response with another content type:
`fmt.Errorf("did not obtain the correct headers from %v with response %v",
targetIP, string(bodyBytes))`. -/
def contentTypeError (targetIP bodyBytes : GoString) : GoError E :=
  .errorf (str "did not obtain the correct headers from " ++ targetIP
    ++ str " with response " ++ bodyBytes)

/-- `resolveObliviousQuery(query, useProxy, targetIP, proxy, proxyHost, client)`,
the client being `w.client`. -/
def resolveObliviousQuery (L : Lib Msg Ctx Contents Qry Dns E)
    (w : World Msg Ctx Contents E) (query : Msg) (useProxy : Bool)
    (targetIP proxy proxyHost : GoString) :
    World Msg Ctx Contents E × Outcome (Msg × Option (GoError E)) :=
  let serializedQuery := L.Marshal query
  match prepareHttpRequest L serializedQuery useProxy targetIP proxy with
  | .fatal e => (w, .fatal e)
  | .crash c => (w, .crash c)
  | .ret (_, some err) => (w, .ret (L.zeroMsg, some err))
  | .ret (none, none) => (w, .crash .nilDereference)
  | .ret (some req, none) =>
    let req := { req with Host := proxyHost }
    let w := { w with client := { w.client with CheckRedirect := some neverFollow } }
    let r := L.clientDo w.client req
    let w := w.log (.clientDo w.client req)
    match r with
    | (none, some _) => (w, .crash .nilDereference)
    | (some _, some err) => (w, .ret (L.zeroMsg, some err))
    | (none, none) => (w, .crash .nilDereference)
    | (some resp, none) =>
      let responseHeader := Header.Get resp.Header (str "Content-Type")
      let w := w.log .ReadAll
      match resp.Body with
      | (_, some err) => (w, .ret (L.zeroMsg, some err))
      | (bodyBytes, none) =>
        if responseHeader ≠ OBLIVIOUS_DOH_CONTENT_TYPE then
          (w, .ret (L.zeroMsg, some (contentTypeError targetIP bodyBytes)))
        else
          let w := w.log (.UnmarshalDNSMessage bodyBytes)
          match L.UnmarshalDNSMessage bodyBytes with
          | (_, some err) => (w, .ret (L.zeroMsg, some err))
          | (odohQueryResponse, none) => (w, .ret (odohQueryResponse, none))

/-- `validateEncryptedResponse(message, queryContext)`. -/
def validateEncryptedResponse (L : Lib Msg Ctx Contents Qry Dns E)
    (w : World Msg Ctx Contents E) (message : Msg) (queryContext : Ctx) :
    World Msg Ctx Contents E × (Option Dns × Option (GoError E)) :=
  let w := w.log (.OpenAnswer queryContext message)
  match L.OpenAnswer queryContext message with
  | (_, some err) => (w, (none, some err))
  | (decryptedResponse, none) =>
    let w := w.log (.Unpack decryptedResponse)
    match parseDnsResponse L decryptedResponse with
    | (_, some err) => (w, (none, some err))
    | (dnsBytes, none) => (w, (some dnsBytes, none))

/-- `sendODoHRequest(client, dnsMessage, odohConfig, useproxy, targetName,
proxy, proxyHost)`, the client being `w.client`. -/
def sendODoHRequest (L : Lib Msg Ctx Contents Qry Dns E)
    (w : World Msg Ctx Contents E) (dnsMessage : GoString)
    (odohConfig : ObliviousDoHConfigs Contents) (useproxy : Bool)
    (targetName proxy proxyHost : GoString) :
    World Msg Ctx Contents E × Outcome (Option Dns × Option (GoError E)) :=
  match odohConfig.Configs with
  | [] => (w, .crash .indexOutOfRange)
  | config :: _ =>
    let w := w.log (.EncryptQuery config.Contents dnsMessage)
    match createOdohQuestion L dnsMessage config.Contents with
    | (_, _, some err) => (w, .ret (none, some err))
    | (odohQuery, queryContext, none) =>
      match resolveObliviousQuery L w odohQuery useproxy targetName proxy proxyHost with
      | (w, .fatal e) => (w, .fatal e)
      | (w, .crash c) => (w, .crash c)
      | (w, .ret (_, some err)) => (w, .ret (none, some err))
      | (w, .ret (odohMessage, none)) =>
        match validateEncryptedResponse L w odohMessage queryContext with
        | (w, (_, some err)) => (w, .ret (none, some err))
        | (w, (dnsResponse, none)) => (w, .ret (dnsResponse, none))

end Code

/-! ## Predicates of the statements -/

/-- The number of `client.Do` calls in a log. -/
def countDo {Msg Ctx Contents E : Type} : List (Event Msg Ctx Contents E) → Nat
  | [] => 0
  | .clientDo _ _ :: t => countDo t + 1
  | _ :: t => countDo t

/-- Letters, digits and the marks `-`, `.`, `_`, `~`: the bytes that no part of
a URL escapes. -/
def isUnreserved (c : Nat) : Bool := isAlnum c || c == 45 || c == 46 || c == 95 || c == 126

/-- An address that is a bare host name: unreserved bytes only, so no user
info, port, path, query, fragment or escape. -/
def bareHost (s : GoString) : Bool := s.all isUnreserved

/-- The representation invariant of `GoString`: every element is a byte. -/
def isBytes (s : GoString) : Bool := s.all (· < 256)

/-- A map of query parameters whose keys and values are all byte strings. -/
def Values.allBytes (v : Values) : Bool :=
  v.all (fun kv => isBytes kv.1 && kv.2.all isBytes)

/-! ## A test double of the libraries -/

/-- Library stand-in for the examples: the ODoH message of a query is the
query itself and so is its context, a context opens only the message it was
made with, a DNS message needs its 12 bytes of header, a request is built by
parsing its URL, and the HTTP exchange is the function `exchange`. -/
def testLib (exchange : Request → Option (Response UrlError) × Option (GoError UrlError)) :
    Lib GoString GoString Unit GoString GoString UrlError where
  zeroMsg := []
  zeroCtx := []
  CreateObliviousDNSQuery := fun dnsMessage _ => dnsMessage
  EncryptQuery := fun _ query => (query, query, none)
  Marshal := fun message => message
  UnmarshalDNSMessage := fun data => (data, none)
  OpenAnswer := fun queryContext message =>
    if message = queryContext then (message, none)
    else ([], some (.errorf (str "decryption failed")))
  Unpack := fun data =>
    if data.length < 12 then (data, some (.errorf (str "dns: overflow unpacking uint16")))
    else (data, none)
  urlString := fun u =>
    u.Scheme ++ str "://" ++ u.Host ++ escape u.Path .encodePath
      ++ (if u.RawQuery = [] then [] else 63 :: u.RawQuery)
  NewRequest := fun method url body =>
    match Parse url with
    | .ok u => (some ⟨method, u, u.Host, [], body⟩, none)
    | .error e => (none, some (.lib e))
  clientDo := fun _ req => exchange req

/-- A responder that sends the body of the request back, under the given
status code and content type. -/
def echo (status : Nat) (contentType : GoString) (req : Request) :
    Option (Response UrlError) × Option (GoError UrlError) :=
  (some ⟨status, [(str "Content-Type", [contentType])], (req.Body, none)⟩, none)

/-- A network on which no exchange succeeds. -/
def unreachable (_req : Request) : Option (Response UrlError) × Option (GoError UrlError) :=
  (none, some (.errorf (str "dial tcp: connection refused")))

/-- A client as the caller makes it, with the default redirect policy. -/
def freshWorld : World GoString GoString Unit UrlError :=
  { client := { CheckRedirect := none }, trace := [] }

/-- The request `prepareHttpRequest` makes under `testLib` for direct delivery
of `body` to `example.com`. -/
def directRequest (body : GoString) : Request :=
  { Method := str "POST",
    URL := { Scheme := str "https", Host := str "example.com", Path := str "/dns-query" },
    Host := str "example.com",
    Header := [(str "Content-Type", [OBLIVIOUS_DOH_CONTENT_TYPE]),
      (str "Accept", [OBLIVIOUS_DOH_CONTENT_TYPE])],
    Body := body }

/-- The request `prepareHttpRequest` makes under `testLib` for delivery of
`body` to `example.com` through the proxy `p.example`. -/
def proxiedRequest (body : GoString) : Request :=
  { Method := str "POST",
    URL := { Scheme := str "https", Host := str "p.example", Path := str "/proxy",
             RawQuery := str "targethost=example.com&targetpath=%2Fdns-query" },
    Host := str "p.example",
    Header := [(str "Content-Type", [OBLIVIOUS_DOH_CONTENT_TYPE]),
      (str "Accept", [OBLIVIOUS_DOH_CONTENT_TYPE])],
    Body := body }

/-- A proxy address that brings its own path and query parameters. -/
def relayAddress : GoString := str "p.example/relay?targethost=t.example&x=1&x=2&y=a%20b"

/-- What `url.Parse` reads from `relayAddress` after `https://`. -/
def relayURL : URL :=
  { Scheme := str "https", Host := str "p.example", Path := str "/relay",
    RawQuery := str "targethost=t.example&x=1&x=2&y=a%20b" }


/-! ## Lemmas on `net/url`: parsing an address that starts with `https://` -/

section ParseLemmas

theorem str_https : str "https://" = [104, 116, 116, 112, 115, 58, 47, 47] := by decide

/-- What an unreserved byte is not. -/
theorem isUnreserved_facts {c : Nat} (h : isUnreserved c = true) :
    32 ≤ c ∧ c < 127 ∧ c ≠ 35 ∧ c ≠ 37 ∧ c ≠ 43 ∧ c ≠ 47 ∧ c ≠ 58 ∧ c ≠ 63 ∧ c ≠ 64 ∧ c ≠ 91 := by
  simp only [isUnreserved, isAlnum, Bool.or_eq_true, Bool.and_eq_true, decide_eq_true_eq,
    beq_iff_eq] at h
  omega

theorem shouldEscape_of_isUnreserved {c : Nat} (h : isUnreserved c = true) (mode : Encoding) :
    shouldEscape c mode = false := by
  unfold shouldEscape
  simp only [isUnreserved, Bool.or_eq_true, beq_iff_eq] at h
  by_cases ha : isAlnum c = true
  · simp [ha]
  · have : c = 45 ∨ c = 46 ∨ c = 95 ∨ c = 126 := by tauto
    rcases this with rfl | rfl | rfl | rfl <;> cases mode <;> decide

theorem cut_of_not_mem (s : GoString) (sep : Nat) (h : sep ∉ s) :
    Strings.cut s sep = (s, [], false) := by
  induction s with
  | nil => rfl
  | cons c t ih =>
    simp only [List.mem_cons, not_or] at h
    simp [Strings.cut, Ne.symm h.1, ih h.2]

theorem indexByte_of_not_mem (s : GoString) (sep : Nat) (h : sep ∉ s) :
    Strings.indexByte s sep = none := by
  induction s with
  | nil => rfl
  | cons c t ih =>
    simp only [List.mem_cons, not_or] at h
    simp [Strings.indexByte, Ne.symm h.1, ih h.2]

theorem lastIndexByte_of_not_mem (s : GoString) (sep : Nat) (h : sep ∉ s) :
    Strings.lastIndexByte s sep = none := by
  induction s with
  | nil => rfl
  | cons c t ih =>
    simp only [List.mem_cons, not_or] at h
    simp [Strings.lastIndexByte, Ne.symm h.1, ih h.2]

theorem hasSuffix_byte_of_not_mem (s : GoString) (sep : Nat) (h : sep ∉ s) :
    Strings.hasSuffix s [sep] = false := by
  unfold Strings.hasSuffix
  rw [Bool.eq_false_iff]
  intro hs
  rw [List.isSuffixOf_iff_suffix] at hs
  exact h (hs.subset (List.mem_singleton_self sep))


theorem unescapeCheck_cons_of_ne (mode : Encoding) (c : Nat) (t : GoString) (h : c ≠ 37) :
    unescapeCheck mode (c :: t) =
      if (mode = .encodeHost ∨ mode = .encodeZone) ∧ c < 128 ∧ shouldEscape c mode = true then
        some (.invalidHost [c])
      else unescapeCheck mode t := by
  rw [unescapeCheck.eq_def]
  simp [h]

theorem unescapeDecode_cons_of_ne (mode : Encoding) (c : Nat) (t : GoString) (h : c ≠ 37) :
    unescapeDecode mode (c :: t) =
      if c = 43 ∧ mode = .encodeQueryComponent then 32 :: unescapeDecode mode t
      else c :: unescapeDecode mode t := by
  rw [unescapeDecode.eq_def]
  simp [h]

theorem unescapeCheck_of_bareHost (s : GoString) (h : bareHost s = true) (mode : Encoding) :
    unescapeCheck mode s = none := by
  induction s with
  | nil => rfl
  | cons c t ih =>
    simp only [bareHost, List.all_cons, Bool.and_eq_true] at h
    have hc := isUnreserved_facts h.1
    have he := shouldEscape_of_isUnreserved h.1 mode
    simp [unescapeCheck_cons_of_ne mode c t hc.2.2.2.1, he, ih h.2]

theorem unescapeDecode_of_bareHost (s : GoString) (h : bareHost s = true) (mode : Encoding) :
    unescapeDecode mode s = s := by
  induction s with
  | nil => rfl
  | cons c t ih =>
    simp only [bareHost, List.all_cons, Bool.and_eq_true] at h
    have hc := isUnreserved_facts h.1
    simp [unescapeDecode_cons_of_ne mode c t hc.2.2.2.1, hc.2.2.2.2.1, ih h.2]

theorem unescape_of_bareHost (s : GoString) (h : bareHost s = true) (mode : Encoding) :
    unescape s mode = .ok s := by
  simp [unescape, unescapeCheck_of_bareHost s h, unescapeDecode_of_bareHost s h]

theorem escape_of_bareHost (s : GoString) (h : bareHost s = true) (mode : Encoding) :
    escape s mode = s := by
  induction s with
  | nil => rfl
  | cons c t ih =>
    simp only [bareHost, List.all_cons, Bool.and_eq_true] at h
    simp [escape, shouldEscape_of_isUnreserved h.1, ih h.2]

theorem not_mem_of_bareHost (s : GoString) (h : bareHost s = true) (c : Nat)
    (hc : isUnreserved c = false) : c ∉ s := by
  intro hm
  simp only [bareHost, List.all_eq_true] at h
  rw [h c hm] at hc
  exact Bool.noConfusion hc

theorem parseHost_of_bareHost (s : GoString) (h : bareHost s = true) :
    parseHost s = .ok s := by
  have h91 : Strings.hasPrefix s [91] = false := by
    cases s with
    | nil => rfl
    | cons c t =>
      simp only [bareHost, List.all_cons, Bool.and_eq_true] at h
      have := isUnreserved_facts h.1
      simp [Strings.hasPrefix, List.isPrefixOf]
      omega
  simp [parseHost, h91, lastIndexByte_of_not_mem s 58 (not_mem_of_bareHost s h 58 (by decide)),
    unescape_of_bareHost s h]

theorem parseAuthority_of_bareHost (s : GoString) (h : bareHost s = true) :
    parseAuthority s = .ok (none, s) := by
  simp [parseAuthority, lastIndexByte_of_not_mem s 64 (not_mem_of_bareHost s h 64 (by decide)),
    parseHost_of_bareHost s h]

theorem Parse_of_bareHost (s : GoString) (h : bareHost s = true) :
    Parse (str "https://" ++ s) = .ok { Scheme := str "https", Host := s } := by
  have n35 := not_mem_of_bareHost s h 35 (by decide)
  have n63 := not_mem_of_bareHost s h 63 (by decide)
  have n47 := not_mem_of_bareHost s h 47 (by decide)
  have hcut : Strings.cut (str "https://" ++ s) 35 = (str "https://" ++ s, [], false) :=
    cut_of_not_mem _ _ (by rw [str_https]; simp [n35])
  have hctl : stringContainsCTLByte (str "https://" ++ s) = false := by
    rw [str_https]
    simp only [stringContainsCTLByte, List.any_eq_false, List.mem_append]
    simp only [bareHost, List.all_eq_true] at h
    rintro b (hb | hb)
    · revert b; decide
    · have := isUnreserved_facts (h b hb)
      simp; omega
  have hsch : getScheme (str "https://" ++ s) = .ok (str "https", 47 :: 47 :: s) := by
    rw [str_https]
    simp [getScheme, getSchemeLoop]
    decide
  have hsuf : Strings.hasSuffix (47 :: 47 :: s) [63] = false :=
    hasSuffix_byte_of_not_mem _ _ (by simp [n63])
  have hcut2 : Strings.cut (47 :: 47 :: s) 63 = (47 :: 47 :: s, [], false) :=
    cut_of_not_mem _ _ (by simp [n63])
  have hlow : Strings.toLower (str "https") = str "https" := by decide
  have hne : str "https://" ++ s ≠ [42] := by rw [str_https]; simp
  have hne2 : str "https" ≠ [] := by decide
  unfold Parse
  simp only [hcut]
  unfold parse
  simp [hctl, hsch, hsuf, hcut2, Strings.hasPrefix, List.isPrefixOf,
    indexByte_of_not_mem s 47 n47, parseAuthority_of_bareHost s h, setPath, unescape,
    unescapeCheck, unescapeDecode, escape, hlow, hne, hne2]


theorem setPath_inv (u u' : URL) (p : GoString) (h : setPath u p = .ok u') :
    ∃ path, unescape p .encodePath = .ok path ∧
      u' = { u with Path := path, RawPath := if p = escape path .encodePath then [] else p } := by
  unfold setPath at h
  rcases hp : unescape p .encodePath with e | path
  · simp [hp] at h
  · simp only [hp, Except.ok.injEq] at h
    exact ⟨path, rfl, h.symm⟩

theorem setFragment_inv (u u' : URL) (f : GoString) (h : setFragment u f = .ok u') :
    ∃ frag, unescape f .encodeFragment = .ok frag ∧
      u' = { u with Fragment := frag,
                    RawFragment := if f = escape frag .encodeFragment then [] else f } := by
  unfold setFragment at h
  rcases hp : unescape f .encodeFragment with e | frag
  · simp [hp] at h
  · simp only [hp, Except.ok.injEq] at h
    exact ⟨frag, rfl, h.symm⟩

theorem cut_https (s : GoString) :
    Strings.cut (str "https://" ++ s) 35
      = (str "https://" ++ (Strings.cut s 35).1, (Strings.cut s 35).2.1, (Strings.cut s 35).2.2) := by
  rw [str_https]
  simp [Strings.cut]

theorem getScheme_https (s : GoString) :
    getScheme (str "https://" ++ s) = .ok (str "https", 47 :: 47 :: s) := by
  rw [str_https]
  simp [getScheme, getSchemeLoop]
  decide



theorem stringContainsCTLByte_https (s : GoString) :
    stringContainsCTLByte (str "https://" ++ s) = stringContainsCTLByte s := by
  rw [str_https]
  simp [stringContainsCTLByte]

/-- The shape of `parse` on a URL that starts with `https://`: what follows
is cut at the first `?`, the authority runs up to the first `/`, and the path
is the rest. -/
theorem parse_https (s : GoString) :
    parse (str "https://" ++ s) =
      if stringContainsCTLByte s then .error .controlCharacter
      else
        match parseAuthority
          (match Strings.indexByte
              (if Strings.hasSuffix (47 :: 47 :: s) [63] && Strings.countByte (47 :: 47 :: s) 63 == 1
                then s.take (s.length - 1) else (Strings.cut s 63).1) 47 with
            | some i =>
              (if Strings.hasSuffix (47 :: 47 :: s) [63] && Strings.countByte (47 :: 47 :: s) 63 == 1
                then s.take (s.length - 1) else (Strings.cut s 63).1).take i
            | none =>
              (if Strings.hasSuffix (47 :: 47 :: s) [63] && Strings.countByte (47 :: 47 :: s) 63 == 1
                then s.take (s.length - 1) else (Strings.cut s 63).1)) with
        | .error e => .error e
        | .ok (user, host) =>
          setPath { Scheme := str "https",
                    ForceQuery := Strings.hasSuffix (47 :: 47 :: s) [63]
                      && Strings.countByte (47 :: 47 :: s) 63 == 1,
                    RawQuery :=
                      if Strings.hasSuffix (47 :: 47 :: s) [63]
                        && Strings.countByte (47 :: 47 :: s) 63 == 1
                      then [] else (Strings.cut s 63).2.1,
                    User := user, Host := host }
            (match Strings.indexByte
              (if Strings.hasSuffix (47 :: 47 :: s) [63] && Strings.countByte (47 :: 47 :: s) 63 == 1
                then s.take (s.length - 1) else (Strings.cut s 63).1) 47 with
              | some i =>
                (if Strings.hasSuffix (47 :: 47 :: s) [63]
                    && Strings.countByte (47 :: 47 :: s) 63 == 1
                  then s.take (s.length - 1) else (Strings.cut s 63).1).drop i
              | none => []) := by
  have hlow : Strings.toLower (str "https") = str "https" := by decide
  have hne : str "https://" ++ s ≠ [42] := by rw [str_https]; simp
  have hne2 : str "https" ≠ [] := by decide
  have hcut : Strings.cut (47 :: 47 :: s) 63
      = (47 :: 47 :: (Strings.cut s 63).1, (Strings.cut s 63).2.1, (Strings.cut s 63).2.2) := by
    simp [Strings.cut]
  unfold parse
  rw [stringContainsCTLByte_https]
  simp only [getScheme_https, hlow, hne, if_false, hcut]
  by_cases hctl : stringContainsCTLByte s = true
  · simp [hctl]
  · simp only [hctl, if_false]
    by_cases hF : (Strings.hasSuffix (47 :: 47 :: s) [63]
        && Strings.countByte (47 :: 47 :: s) 63 == 1) = true
    · have hs : s ≠ [] := by
        rintro rfl
        revert hF
        decide
      obtain ⟨c, t, rfl⟩ := List.exists_cons_of_ne_nil hs
      simp [hF, hne2, Strings.hasPrefix, List.isPrefixOf]
    · simp [hF, hne2, Strings.hasPrefix, List.isPrefixOf]

theorem mem_of_mem_cut_fst (s : GoString) (sep b : Nat) (h : b ∈ (Strings.cut s sep).1) :
    b ∈ s := by
  induction s with
  | nil => simp [Strings.cut] at h
  | cons c t ih =>
    unfold Strings.cut at h
    split at h
    · simp at h
    · simp only [List.mem_cons] at h ⊢
      rcases h with h | h
      · exact Or.inl h
      · exact Or.inr (ih h)

theorem mem_of_mem_cut_snd (s : GoString) (sep b : Nat) (h : b ∈ (Strings.cut s sep).2.1) :
    b ∈ s := by
  induction s with
  | nil => simp [Strings.cut] at h
  | cons c t ih =>
    unfold Strings.cut at h
    split at h
    · exact List.mem_cons_of_mem _ h
    · exact List.mem_cons_of_mem _ (ih h)

theorem mem_of_mem_authority0 (s : GoString) (b : Nat)
    (h : b ∈ (if Strings.hasSuffix (47 :: 47 :: s) [63] && Strings.countByte (47 :: 47 :: s) 63 == 1
      then s.take (s.length - 1) else (Strings.cut s 63).1)) : b ∈ s := by
  split at h
  · exact List.mem_of_mem_take h
  · exact mem_of_mem_cut_fst s 63 b h

/-- A URL parsed from a string that starts with `https://`: its scheme, and
where its parts come from. -/
theorem parse_https_inv (s : GoString) (u : URL)
    (h : parse (str "https://" ++ s) = .ok u) :
    ∃ authority rest user host path,
      parseAuthority authority = .ok (user, host) ∧ unescape rest .encodePath = .ok path ∧
      (∀ b ∈ authority, b ∈ s) ∧ (∀ b ∈ rest, b ∈ s) ∧ (∀ b ∈ u.RawQuery, b ∈ s) ∧
      u.Scheme = str "https" ∧ u.User = user ∧ u.Host = host ∧ u.Path = path ∧
      u.Fragment = [] := by
  rw [parse_https] at h
  split at h
  · simp at h
  · split at h
    · simp at h
    · rename_i user host hauth
      obtain ⟨path, hpath, hu⟩ := setPath_inv _ _ _ h
      refine ⟨_, _, user, host, path, hauth, hpath, ?_, ?_, ?_, ?_⟩
      · intro b hb
        split at hb
        · exact mem_of_mem_authority0 s b (List.mem_of_mem_take hb)
        · exact mem_of_mem_authority0 s b hb
      · intro b hb
        split at hb
        · exact mem_of_mem_authority0 s b (List.mem_of_mem_drop hb)
        · simp at hb
      · subst hu
        intro b hb
        simp only at hb
        split at hb
        · simp at hb
        · exact mem_of_mem_cut_snd s 63 b hb
      · subst hu
        simp

theorem parse_https_scheme (s : GoString) (u : URL)
    (h : parse (str "https://" ++ s) = .ok u) : u.Scheme = str "https" := by
  obtain ⟨_, _, _, _, _, _, _, _, _, _, hs, _⟩ := parse_https_inv s u h
  exact hs

/-- A URL that `url.Parse` reads from a string that starts with `https://`. -/
theorem Parse_https_inv (s : GoString) (u : URL)
    (h : Parse (str "https://" ++ s) = .ok u) :
    ∃ authority rest user host path,
      parseAuthority authority = .ok (user, host) ∧ unescape rest .encodePath = .ok path ∧
      (∀ b ∈ authority, b ∈ s) ∧ (∀ b ∈ rest, b ∈ s) ∧ (∀ b ∈ u.RawQuery, b ∈ s) ∧
      u.Scheme = str "https" ∧ u.User = user ∧ u.Host = host ∧ u.Path = path := by
  unfold Parse at h
  rw [cut_https] at h
  simp only at h
  rcases hp : parse (str "https://" ++ (Strings.cut s 35).1) with e | url
  · simp [hp] at h
  · obtain ⟨authority, rest, user, host, path, h1, h2, h3, h4, h5, h6, h7, h8, h9, _⟩ :=
      parse_https_inv _ _ hp
    have hsub : ∀ b ∈ (Strings.cut s 35).1, b ∈ s := fun b hb => mem_of_mem_cut_fst s 35 b hb
    simp only [hp] at h
    split at h
    · simp only [Except.ok.injEq] at h
      subst h
      exact ⟨authority, rest, user, host, path, h1, h2, fun b hb => hsub b (h3 b hb),
        fun b hb => hsub b (h4 b hb), fun b hb => hsub b (h5 b hb), h6, h7, h8, h9⟩
    · obtain ⟨frag, _, hu⟩ := setFragment_inv _ _ _ h
      subst hu
      exact ⟨authority, rest, user, host, path, h1, h2, fun b hb => hsub b (h3 b hb),
        fun b hb => hsub b (h4 b hb), fun b hb => hsub b (h5 b hb), h6, h7, h8, h9⟩

end ParseLemmas

/-! ## Lemmas on `net/url`: `ParseQuery` undoes `Encode` -/

section QueryLemmas

theorem isBytes_iff (s : GoString) : isBytes s = true ↔ ∀ b ∈ s, b < 256 := by
  simp [isBytes, List.all_eq_true]

theorem upperhex_facts (n : Nat) (h : n < 16) :
    ishex (upperhex n) = true ∧ unhex (upperhex n) = n ∧
      upperhex n ≠ 38 ∧ upperhex n ≠ 59 ∧ upperhex n ≠ 61 := by
  revert n
  decide

theorem unhex_le (c : Nat) : unhex c ≤ 15 := by
  unfold unhex
  split_ifs <;> omega

/-- In a query component the bytes `% & + ; =` are escaped. -/
theorem shouldEscape_query_facts {c : Nat} (h : shouldEscape c .encodeQueryComponent = false) :
    c ≠ 37 ∧ c ≠ 38 ∧ c ≠ 43 ∧ c ≠ 59 ∧ c ≠ 61 ∧ c ≠ 32 := by
  refine ⟨?_, ?_, ?_, ?_, ?_, ?_⟩ <;> (rintro rfl; revert h; decide)

theorem unescapeCheck_pct (mode : Encoding) (a b : Nat) (rest : GoString) :
    unescapeCheck mode (37 :: a :: b :: rest) =
      if !(ishex a && ishex b) then some (.escapeError [37, a, b])
      else if mode = .encodeHost ∧ unhex a < 8 ∧ [37, a, b] ≠ [37, 50, 53] then
        some (.escapeError [37, a, b])
      else if mode = .encodeZone ∧ [37, a, b] ≠ [37, 50, 53] ∧ unhex a * 16 + unhex b ≠ 32
          ∧ shouldEscape (unhex a * 16 + unhex b) .encodeHost then
        some (.escapeError [37, a, b])
      else unescapeCheck mode rest := by
  rw [unescapeCheck.eq_def]
  simp

theorem unescapeDecode_pct (mode : Encoding) (a b : Nat) (rest : GoString) :
    unescapeDecode mode (37 :: a :: b :: rest)
      = (unhex a * 16 + unhex b) :: unescapeDecode mode rest := by
  rw [unescapeDecode.eq_def]
  simp

/-- `QueryUnescape` undoes `QueryEscape` on byte strings. -/
theorem QueryUnescape_QueryEscape (s : GoString) (h : isBytes s = true) :
    QueryUnescape (QueryEscape s) = .ok s := by
  have hc : unescapeCheck .encodeQueryComponent (escape s .encodeQueryComponent) = none ∧
      unescapeDecode .encodeQueryComponent (escape s .encodeQueryComponent) = s := by
    induction s with
    | nil => exact ⟨rfl, rfl⟩
    | cons c t ih =>
      simp only [isBytes, List.all_cons, Bool.and_eq_true, decide_eq_true_eq] at h
      obtain ⟨ih1, ih2⟩ := ih h.2
      unfold escape
      by_cases he : shouldEscape c .encodeQueryComponent = true
      · simp only [he, if_true]
        by_cases h32 : c = 32
        · subst h32
          simp [unescapeCheck_cons_of_ne, unescapeDecode_cons_of_ne, ih1, ih2]
        · have hhi := upperhex_facts (c / 16) (by omega)
          have hlo := upperhex_facts (c % 16) (by omega)
          simp only [h32, false_and, if_false]
          rw [unescapeCheck_pct, unescapeDecode_pct]
          simp only [hhi.1, hlo.1, hhi.2.1, hlo.2.1, ih1, ih2]
          refine ⟨by simp, ?_⟩
          congr 1
          omega
      · have he' : shouldEscape c .encodeQueryComponent = false := by simpa using he
        have hf := shouldEscape_query_facts he'
        simp only [he', Bool.false_eq_true, if_false]
        rw [unescapeCheck_cons_of_ne _ _ _ hf.1, unescapeDecode_cons_of_ne _ _ _ hf.1]
        simp [hf.2.2.1, ih1, ih2]
  simp [QueryUnescape, QueryEscape, unescape, hc.1, hc.2]

/-- An escaped query component holds none of `&`, `;`, `=`. -/
theorem not_mem_QueryEscape (s : GoString) (h : isBytes s = true) (c : Nat)
    (hc : c = 38 ∨ c = 59 ∨ c = 61) : c ∉ QueryEscape s := by
  unfold QueryEscape
  induction s with
  | nil => simp [escape]
  | cons x t ih =>
    simp only [isBytes, List.all_cons, Bool.and_eq_true, decide_eq_true_eq] at h
    have ih' := ih h.2
    unfold escape
    by_cases he : shouldEscape x .encodeQueryComponent = true
    · simp only [he, if_true]
      by_cases h32 : x = 32
      · simp only [h32, true_and, if_true, List.mem_cons, not_or]
        exact ⟨by omega, ih'⟩
      · have hhi := upperhex_facts (x / 16) (by omega)
        have hlo := upperhex_facts (x % 16) (by omega)
        simp only [h32, false_and, if_false, List.mem_cons, not_or]
        refine ⟨by omega, ?_, ?_, ih'⟩
        · rcases hc with rfl | rfl | rfl
          · exact Ne.symm hhi.2.2.1
          · exact Ne.symm hhi.2.2.2.1
          · exact Ne.symm hhi.2.2.2.2
        · rcases hc with rfl | rfl | rfl
          · exact Ne.symm hlo.2.2.1
          · exact Ne.symm hlo.2.2.2.1
          · exact Ne.symm hlo.2.2.2.2
    · have he' : shouldEscape x .encodeQueryComponent = false := by simpa using he
      have hf := shouldEscape_query_facts he'
      simp only [he', Bool.false_eq_true, if_false, List.mem_cons, not_or]
      exact ⟨by omega, ih'⟩


theorem cut_append_sep (a b : GoString) (sep : Nat) (h : sep ∉ a) :
    Strings.cut (a ++ sep :: b) sep = (a, b, true) := by
  induction a with
  | nil => simp [Strings.cut]
  | cons c t ih =>
    simp only [List.mem_cons, not_or] at h
    simp [Strings.cut, Ne.symm h.1, ih h.2]

theorem splitByte_of_not_mem (s : GoString) (sep : Nat) (h : sep ∉ s) :
    Strings.splitByte sep s = [s] := by
  induction s with
  | nil => rfl
  | cons c t ih =>
    simp only [List.mem_cons, not_or] at h
    simp [Strings.splitByte, Ne.symm h.1, ih h.2]

theorem splitByte_append_sep (a b : GoString) (sep : Nat) (h : sep ∉ a) :
    Strings.splitByte sep (a ++ sep :: b) = a :: Strings.splitByte sep b := by
  induction a with
  | nil => simp [Strings.splitByte]
  | cons c t ih =>
    simp only [List.mem_cons, not_or] at h
    simp [Strings.splitByte, Ne.symm h.1, ih h.2]

/-- Cutting at the `&` gives back the pairs that were joined. -/
theorem splitByte_joinAmp (p : GoString) (ps : List GoString)
    (h : ∀ x ∈ p :: ps, 38 ∉ x) :
    Strings.splitByte 38 (Values.joinAmp (p :: ps)) = p :: ps := by
  induction ps generalizing p with
  | nil => exact splitByte_of_not_mem p 38 (h p (List.mem_cons_self _ _))
  | cons q qs ih =>
    have hp := h p (List.mem_cons_self _ _)
    have := ih q (fun x hx => h x (List.mem_cons_of_mem _ hx))
    simp only [Values.joinAmp, List.append_assoc, List.singleton_append]
    rw [splitByte_append_sep _ _ _ hp, this]

theorem lookup_assign (v : Values) (k k' : GoString) (vs : List GoString) :
    Values.lookup (Values.assign v k vs) k' = if k = k' then vs else Values.lookup v k' := by
  induction v with
  | nil => simp [Values.assign, Values.lookup]
  | cons kv t ih =>
    obtain ⟨a, old⟩ := kv
    unfold Values.assign
    by_cases hak : a = k
    · subst hak
      by_cases hk : a = k' <;> simp [Values.lookup, hk]
    · simp only [hak, if_false, Values.lookup]
      by_cases hk' : a = k'
      · subst hk'
        simp [Ne.symm hak]
      · simp [hk', ih]

/-- One turn of `parseQuery` on a pair that `Encode` wrote. -/
theorem parseQueryStep_encoded (m : Values) (k x : GoString)
    (hk : isBytes k = true) (hx : isBytes x = true) :
    parseQueryStep (m, none) (QueryEscape k ++ [61] ++ QueryEscape x)
      = (Values.assign m k (Values.lookup m k ++ [x]), none) := by
  have h59 : Strings.containsByte (QueryEscape k ++ [61] ++ QueryEscape x) 59 = false := by
    have h1 := not_mem_QueryEscape k hk 59 (by simp)
    have h2 := not_mem_QueryEscape x hx 59 (by simp)
    simp only [Strings.containsByte, List.any_eq_false, List.mem_append, List.mem_singleton,
      beq_iff_eq]
    rintro b ((hb | hb) | hb) rfl
    · exact h1 hb
    · omega
    · exact h2 hb
  have hne : QueryEscape k ++ [61] ++ QueryEscape x ≠ [] := by simp
  have hcut : Strings.cut (QueryEscape k ++ [61] ++ QueryEscape x) 61
      = (QueryEscape k, QueryEscape x, true) := by
    rw [List.append_assoc, List.singleton_append]
    exact cut_append_sep _ _ _ (not_mem_QueryEscape k hk 61 (by simp))
  unfold parseQueryStep
  simp only [h59, Bool.false_eq_true, if_false, hne, hcut, QueryUnescape_QueryEscape k hk,
    QueryUnescape_QueryEscape x hx]


theorem foldl_encodeKey (k : GoString) (vs : List GoString) (hk : isBytes k = true)
    (hvs : ∀ x ∈ vs, isBytes x = true) (m : Values) :
    ∃ m', (Values.encodeKey k vs).foldl parseQueryStep (m, none) = (m', none) ∧
      ∀ k', Values.lookup m' k'
        = if k = k' then Values.lookup m k' ++ vs else Values.lookup m k' := by
  induction vs generalizing m with
  | nil => exact ⟨m, rfl, fun k' => by simp⟩
  | cons x xs ih =>
    obtain ⟨m', h1, h2⟩ := ih (fun y hy => hvs y (List.mem_cons_of_mem _ hy))
      (Values.assign m k (Values.lookup m k ++ [x]))
    refine ⟨m', ?_, fun k' => ?_⟩
    · simp only [Values.encodeKey, List.map_cons, List.foldl_cons] at h1 ⊢
      rw [parseQueryStep_encoded m k x hk (hvs x (List.mem_cons_self _ _))]
      exact h1
    · rw [h2 k', lookup_assign]
      by_cases hkk : k = k'
      · subst hkk
        simp
      · simp [hkk]

theorem foldl_encodePairs (v : Values) (ks : List GoString) (hnd : ks.Nodup)
    (hks : ∀ k ∈ ks, isBytes k = true)
    (hvs : ∀ k, ∀ x ∈ Values.lookup v k, isBytes x = true) (m : Values) :
    ∃ m', (Values.encodePairs v ks).foldl parseQueryStep (m, none) = (m', none) ∧
      ∀ k', Values.lookup m' k'
        = Values.lookup m k' ++ (if k' ∈ ks then Values.lookup v k' else []) := by
  induction ks generalizing m with
  | nil => exact ⟨m, rfl, fun k' => by simp⟩
  | cons k ks ih =>
    rw [List.nodup_cons] at hnd
    obtain ⟨m1, h1, h2⟩ := foldl_encodeKey k (Values.lookup v k)
      (hks k (List.mem_cons_self _ _)) (hvs k) m
    obtain ⟨m', h3, h4⟩ := ih hnd.2 (fun y hy => hks y (List.mem_cons_of_mem _ hy)) m1
    refine ⟨m', ?_, fun k' => ?_⟩
    · simp only [Values.encodePairs, List.foldl_append, h1, h3]
    · rw [h4 k', h2 k']
      by_cases hkk : k = k'
      · subst hkk
        simp [hnd.1]
      · have : ¬ k' = k := fun h => hkk h.symm
        simp [hkk, this]

theorem insertKey_perm (k : GoString) (xs : List GoString) :
    (Values.insertKey k xs).Perm (k :: xs) := by
  induction xs with
  | nil => exact List.Perm.refl _
  | cons x xs ih =>
    unfold Values.insertKey
    split
    · exact (List.Perm.cons x ih).trans (List.Perm.swap k x xs)
    · exact List.Perm.refl _

theorem sortKeys_perm (ks : List GoString) : (Values.sortKeys ks).Perm ks := by
  induction ks with
  | nil => exact List.Perm.refl _
  | cons k ks ih => exact (insertKey_perm k _).trans (List.Perm.cons k ih)

theorem lookup_of_not_mem (v : Values) (k : GoString) (h : k ∉ v.map Prod.fst) :
    Values.lookup v k = [] := by
  induction v with
  | nil => rfl
  | cons kv t ih =>
    obtain ⟨a, vs⟩ := kv
    simp only [List.map_cons, List.mem_cons, not_or] at h
    simp [Values.lookup, Ne.symm h.1, ih h.2]

theorem allBytes_keys (v : Values) (h : Values.allBytes v = true) :
    ∀ k ∈ v.map Prod.fst, isBytes k = true := by
  intro k hk
  simp only [List.mem_map] at hk
  obtain ⟨kv, hkv, rfl⟩ := hk
  simp only [Values.allBytes, List.all_eq_true, Bool.and_eq_true] at h
  exact (h kv hkv).1

theorem allBytes_lookup (v : Values) (h : Values.allBytes v = true) :
    ∀ k, ∀ x ∈ Values.lookup v k, isBytes x = true := by
  intro k
  induction v with
  | nil => simp [Values.lookup]
  | cons kv t ih =>
    obtain ⟨a, vs⟩ := kv
    simp only [Values.allBytes, List.all_cons, Bool.and_eq_true] at h
    unfold Values.lookup
    split
    · intro x hx
      exact (List.all_eq_true.mp h.1.2) x hx
    · exact ih h.2

theorem mem_encodePairs (v : Values) (ks : List GoString) (p : GoString)
    (h : p ∈ Values.encodePairs v ks) :
    ∃ k ∈ ks, ∃ x ∈ Values.lookup v k, p = QueryEscape k ++ [61] ++ QueryEscape x := by
  induction ks with
  | nil => simp [Values.encodePairs] at h
  | cons k ks ih =>
    simp only [Values.encodePairs, List.mem_append, Values.encodeKey, List.mem_map] at h
    rcases h with ⟨x, hx, rfl⟩ | h
    · exact ⟨k, List.mem_cons_self _ _, x, hx, rfl⟩
    · obtain ⟨k', hk', x, hx, rfl⟩ := ih h
      exact ⟨k', List.mem_cons_of_mem _ hk', x, hx, rfl⟩

/-- Parsing the query string that `Encode` wrote gives back, under each key,
the values the map held. -/
theorem ParseQuery_Encode (v : Values) (hnd : (v.map Prod.fst).Nodup)
    (hb : Values.allBytes v = true) :
    (ParseQuery (Values.Encode v)).2 = none ∧
    ∀ k, Values.lookup (ParseQuery (Values.Encode v)).1 k = Values.lookup v k := by
  have hperm := sortKeys_perm (v.map Prod.fst)
  obtain ⟨m', h1, h2⟩ := foldl_encodePairs v (Values.sortKeys (v.map Prod.fst))
    (hperm.nodup_iff.mpr hnd)
    (fun k hk => allBytes_keys v hb k (hperm.mem_iff.mp hk)) (allBytes_lookup v hb) []
  have hfold : ParseQuery (Values.Encode v) = (m', none) := by
    unfold ParseQuery Values.Encode
    rcases hps : Values.encodePairs v (Values.sortKeys (v.map Prod.fst)) with _ | ⟨p, ps⟩
    · rw [hps] at h1
      simp only [List.foldl_nil, Prod.mk.injEq] at h1
      simp [Values.joinAmp, Strings.splitByte, parseQueryStep, Strings.containsByte, h1.1]
    · rw [splitByte_joinAmp, ← hps, h1]
      intro x hx
      rw [← hps] at hx
      obtain ⟨k, hk, y, hy, rfl⟩ := mem_encodePairs v _ x hx
      have hkb := allBytes_keys v hb k (hperm.mem_iff.mp hk)
      have hyb := allBytes_lookup v hb k y hy
      simp only [List.mem_append, List.mem_singleton, not_or]
      exact ⟨⟨not_mem_QueryEscape k hkb 38 (by simp), by omega⟩,
        not_mem_QueryEscape y hyb 38 (by simp)⟩
  rw [hfold]
  refine ⟨rfl, fun k => ?_⟩
  rw [h2 k]
  by_cases hk : k ∈ v.map Prod.fst
  · simp [hperm.mem_iff.mpr hk, Values.lookup]
  · simp [mt hperm.mem_iff.mp hk, Values.lookup, lookup_of_not_mem v k hk]


theorem unescapeDecode_short (mode : Encoding) (t : GoString) (h : t.length < 2) :
    unescapeDecode mode (37 :: t) = [] := by
  rw [unescapeDecode.eq_def]
  match t, h with
  | [], _ => rfl
  | [_], _ => rfl

theorem unescapeDecode_bytes (mode : Encoding) (n : Nat) :
    ∀ s : GoString, s.length ≤ n → (∀ b ∈ s, b < 256) →
      ∀ b ∈ unescapeDecode mode s, b < 256 := by
  induction n with
  | zero =>
    intro s hs _
    have : s = [] := List.length_eq_zero.mp (Nat.le_zero.mp hs)
    subst this
    simp [unescapeDecode]
  | succ n ih =>
    intro s hs hb
    match s, hs, hb with
    | [], _, _ => simp [unescapeDecode]
    | c :: t, hs, hb =>
      by_cases hc : c = 37
      · subst hc
        match t, hs, hb with
        | [], _, _ => simp [unescapeDecode_short]
        | [_], _, _ => simp [unescapeDecode_short]
        | a :: b :: rest, hs, hb =>
          rw [unescapeDecode_pct]
          intro x hx
          simp only [List.mem_cons] at hx
          rcases hx with rfl | hx
          · have := unhex_le a
            have := unhex_le b
            omega
          · refine ih rest ?_ (fun y hy => hb y ?_) x hx
            · simp only [List.length_cons] at hs
              omega
            · simp [hy]
      · rw [unescapeDecode_cons_of_ne _ _ _ hc]
        have iht := ih t (by simp only [List.length_cons] at hs; omega)
          (fun y hy => hb y (List.mem_cons_of_mem _ hy))
        intro x hx
        split at hx
        · simp only [List.mem_cons] at hx
          rcases hx with rfl | hx
          · omega
          · exact iht x hx
        · simp only [List.mem_cons] at hx
          rcases hx with rfl | hx
          · exact hb x (List.mem_cons_self _ _)
          · exact iht x hx

theorem unescape_bytes (s r : GoString) (mode : Encoding) (h : unescape s mode = .ok r)
    (hb : ∀ b ∈ s, b < 256) : ∀ b ∈ r, b < 256 := by
  unfold unescape at h
  split at h
  · simp at h
  · simp only [Except.ok.injEq] at h
    subst h
    exact unescapeDecode_bytes mode s.length s (Nat.le_refl _) hb

theorem parseHost_bytes (host r : GoString) (h : parseHost host = .ok r)
    (hb : ∀ b ∈ host, b < 256) : ∀ b ∈ r, b < 256 := by
  unfold parseHost at h
  by_cases hpre : Strings.hasPrefix host [91] = true
  · simp only [hpre, if_true] at h
    rcases hl : Strings.lastIndexByte host 93 with _ | i
    · simp [hl] at h
    · simp only [hl] at h
      by_cases hv : validOptionalPort (host.drop (i + 1)) = true
      · simp only [hv, Bool.not_true, Bool.false_eq_true, if_false] at h
        rcases hz : Strings.index (host.take i) [37, 50, 53] with _ | zone
        · simp only [hz] at h
          exact unescape_bytes _ _ _ h hb
        · simp only [hz] at h
          rcases h1 : unescape (host.take zone) .encodeHost with e | host1
          · simp [h1] at h
          · rcases h2 : unescape ((host.take i).drop zone) .encodeZone with e | host2
            · simp [h1, h2] at h
            · rcases h3 : unescape (host.drop i) .encodeHost with e | host3
              · simp [h1, h2, h3] at h
              · simp only [h1, h2, h3, Except.ok.injEq] at h
                subst h
                intro b hm
                simp only [List.mem_append] at hm
                rcases hm with (hm | hm) | hm
                · exact unescape_bytes _ _ _ h1
                    (fun y hy => hb y (List.mem_of_mem_take hy)) b hm
                · exact unescape_bytes _ _ _ h2
                    (fun y hy => hb y (List.mem_of_mem_take (List.mem_of_mem_drop hy))) b hm
                · exact unescape_bytes _ _ _ h3
                    (fun y hy => hb y (List.mem_of_mem_drop hy)) b hm
      · simp [hv] at h
  · simp only [hpre, Bool.false_eq_true, if_false] at h
    rcases hl : Strings.lastIndexByte host 58 with _ | i
    · simp only [hl] at h
      exact unescape_bytes _ _ _ h hb
    · simp only [hl] at h
      by_cases hv : validOptionalPort (host.drop i) = true
      · simp only [hv, Bool.not_true, Bool.false_eq_true, if_false] at h
        exact unescape_bytes _ _ _ h hb
      · simp [hv] at h

theorem parseAuthority_bytes (authority host : GoString) (user : Option Userinfo)
    (h : parseAuthority authority = .ok (user, host))
    (hb : ∀ b ∈ authority, b < 256) : ∀ b ∈ host, b < 256 := by
  unfold parseAuthority at h
  rcases hl : Strings.lastIndexByte authority 64 with _ | i
  · simp only [hl] at h
    rcases hr : parseHost authority with e | r
    · simp [hr] at h
    · simp only [hr, Except.ok.injEq, Prod.mk.injEq] at h
      rw [← h.2]
      exact parseHost_bytes _ _ hr hb
  · simp only [hl] at h
    rcases hr : parseHost (authority.drop (i + 1)) with e | r
    · simp [hr] at h
    · have hr' := parseHost_bytes _ _ hr (fun y hy => hb y (List.mem_of_mem_drop hy))
      simp only [hr] at h
      by_cases hv : validUserinfo (authority.take i) = true
      · simp only [hv, Bool.not_true, Bool.false_eq_true, if_false] at h
        by_cases hc : Strings.containsByte (authority.take i) 58 = true
        · simp only [hc, Bool.not_true, Bool.false_eq_true, if_false] at h
          rcases h1 : unescape (Strings.cut (authority.take i) 58).1 .encodeUserPassword
            with e | username
          · simp [h1] at h
          · rcases h2 : unescape (Strings.cut (authority.take i) 58).2.1 .encodeUserPassword
              with e | password
            · simp [h1, h2] at h
            · simp only [h1, h2, Except.ok.injEq, Prod.mk.injEq] at h
              rw [← h.2]
              exact hr'
        · simp only [hc, Bool.not_false, if_true] at h
          rcases h1 : unescape (authority.take i) .encodeUserPassword with e | username
          · simp [h1] at h
          · simp only [h1, Except.ok.injEq, Prod.mk.injEq] at h
            rw [← h.2]
            exact hr'
      · simp [hv] at h

/-- The host, path and query of a URL parsed from a byte string are byte
strings. -/
theorem Parse_https_bytes (s : GoString) (u : URL) (h : Parse (str "https://" ++ s) = .ok u)
    (hb : isBytes s = true) :
    isBytes u.Host = true ∧ isBytes u.Path = true ∧ isBytes u.RawQuery = true := by
  rw [isBytes_iff] at hb
  obtain ⟨authority, rest, user, host, path, h1, h2, h3, h4, h5, _, _, h8, h9⟩ :=
    Parse_https_inv s u h
  refine ⟨?_, ?_, ?_⟩
  · rw [isBytes_iff, h8]
    exact parseAuthority_bytes _ _ _ h1 (fun b hm => hb b (h3 b hm))
  · rw [isBytes_iff, h9]
    exact unescape_bytes _ _ _ h2 (fun b hm => hb b (h4 b hm))
  · rw [isBytes_iff]
    exact fun b hm => hb b (h5 b hm)


theorem keys_assign (v : Values) (k : GoString) (vs : List GoString) :
    (Values.assign v k vs).map Prod.fst
      = if k ∈ v.map Prod.fst then v.map Prod.fst else v.map Prod.fst ++ [k] := by
  induction v with
  | nil => simp [Values.assign]
  | cons kv t ih =>
    obtain ⟨a, old⟩ := kv
    unfold Values.assign
    by_cases hak : a = k
    · simp [hak]
    · have : ¬ k = a := fun h => hak h.symm
      simp only [hak, if_false, List.map_cons, ih, List.mem_cons, this, false_or]
      split <;> simp

theorem nodup_assign (v : Values) (k : GoString) (vs : List GoString)
    (h : (v.map Prod.fst).Nodup) : ((Values.assign v k vs).map Prod.fst).Nodup := by
  rw [keys_assign]
  split
  · exact h
  · rename_i hk
    exact List.Nodup.append h (List.nodup_singleton k) (by simpa using hk)

theorem allBytes_assign (v : Values) (k : GoString) (vs : List GoString)
    (h : Values.allBytes v = true) (hk : isBytes k = true) (hvs : ∀ x ∈ vs, isBytes x = true) :
    Values.allBytes (Values.assign v k vs) = true := by
  induction v with
  | nil =>
    simp only [Values.assign, Values.allBytes, List.all_cons, List.all_nil, Bool.and_true,
      Bool.and_eq_true]
    exact ⟨hk, List.all_eq_true.mpr hvs⟩
  | cons kv t ih =>
    obtain ⟨a, old⟩ := kv
    simp only [Values.allBytes, List.all_cons, Bool.and_eq_true] at h
    unfold Values.assign
    split
    · simp only [Values.allBytes, List.all_cons, Bool.and_eq_true]
      exact ⟨⟨h.1.1, List.all_eq_true.mpr hvs⟩, h.2⟩
    · simp only [Values.allBytes, List.all_cons, Bool.and_eq_true]
      exact ⟨h.1, ih h.2⟩

theorem mem_splitByte (sep : Nat) (s p : GoString) (h : p ∈ Strings.splitByte sep s) :
    ∀ b ∈ p, b ∈ s := by
  induction s generalizing p with
  | nil =>
    simp only [Strings.splitByte, List.mem_singleton] at h
    subst h
    simp
  | cons c t ih =>
    unfold Strings.splitByte at h
    split at h
    · simp only [List.mem_cons] at h
      rcases h with rfl | h
      · simp
      · exact fun b hb => List.mem_cons_of_mem _ (ih p h b hb)
    · split at h
      · rename_i seg segs hs
        simp only [List.mem_cons] at h
        rcases h with rfl | h
        · intro b hb
          simp only [List.mem_cons] at hb ⊢
          rcases hb with hb | hb
          · exact Or.inl hb
          · exact Or.inr (ih seg (by rw [hs]; exact List.mem_cons_self _ _) b hb)
        · exact fun b hb => List.mem_cons_of_mem _
            (ih p (by rw [hs]; exact List.mem_cons_of_mem _ h) b hb)
      · simp only [List.mem_singleton] at h
        subst h
        intro b hb
        simp only [List.mem_singleton] at hb
        subst hb
        exact List.mem_cons_self _ _

/-- One turn of `parseQuery` keeps the map one entry per key and made of
byte strings. -/
theorem parseQueryStep_inv (m : Values × Option UrlError) (piece : GoString)
    (hp : ∀ b ∈ piece, b < 256)
    (h : (m.1.map Prod.fst).Nodup ∧ Values.allBytes m.1 = true) :
    ((parseQueryStep m piece).1.map Prod.fst).Nodup ∧
      Values.allBytes (parseQueryStep m piece).1 = true := by
  unfold parseQueryStep
  split
  · exact h
  · split
    · exact h
    · simp only
      rcases h1 : QueryUnescape (Strings.cut piece 61).1 with e | k
      · exact h
      · rcases h2 : QueryUnescape (Strings.cut piece 61).2.1 with e | value
        · exact h
        · have hkb : isBytes k = true := (isBytes_iff k).mpr
            (unescape_bytes _ _ _ h1 (fun b hb => hp b (mem_of_mem_cut_fst _ _ _ hb)))
          have hvb : isBytes value = true := (isBytes_iff value).mpr
            (unescape_bytes _ _ _ h2 (fun b hb => hp b (mem_of_mem_cut_snd _ _ _ hb)))
          refine ⟨nodup_assign _ _ _ h.1, allBytes_assign _ _ _ h.2 hkb ?_⟩
          intro x hx
          simp only [List.mem_append, List.mem_singleton] at hx
          rcases hx with hx | rfl
          · exact allBytes_lookup _ h.2 k x hx
          · exact hvb

theorem foldl_parseQueryStep_inv (pieces : List GoString) (m : Values × Option UrlError)
    (hp : ∀ p ∈ pieces, ∀ b ∈ p, b < 256)
    (h : (m.1.map Prod.fst).Nodup ∧ Values.allBytes m.1 = true) :
    (((pieces.foldl parseQueryStep m).1).map Prod.fst).Nodup ∧
      Values.allBytes (pieces.foldl parseQueryStep m).1 = true := by
  induction pieces generalizing m with
  | nil => exact h
  | cons p ps ih =>
    exact ih _ (fun q hq => hp q (List.mem_cons_of_mem _ hq))
      (parseQueryStep_inv m p (hp p (List.mem_cons_self _ _)) h)

/-- The map `ParseQuery` reads from a byte string has one entry per key and
is made of byte strings. -/
theorem ParseQuery_inv (query : GoString) (h : isBytes query = true) :
    (((ParseQuery query).1).map Prod.fst).Nodup ∧ Values.allBytes (ParseQuery query).1 = true := by
  rw [isBytes_iff] at h
  exact foldl_parseQueryStep_inv _ _
    (fun p hp b hb => h b (mem_splitByte 38 query p hp b hb)) ⟨List.nodup_nil, rfl⟩

end QueryLemmas

/-! ## URL construction: claims C3, C4, C5 -/

section UrlConstruction

/-- `buildURL` on an address that parses. -/
theorem buildURL_of_parse (s defaultPath : GoString) (u : URL)
    (h : Parse (str "https://" ++ s) = .ok u) :
    buildURL s defaultPath = .ret (if u.Path = [] then { u with Path := defaultPath } else u) := by
  simp [buildURL, h]

/-- `buildURL` on an address that does not parse: `log.Fatalf`. -/
theorem buildURL_of_parse_error (s defaultPath : GoString) (e : UrlError)
    (h : Parse (str "https://" ++ s) = .error e) :
    buildURL s defaultPath = .fatal e := by
  simp [buildURL, h]

/-- `buildURL` returns only when the address parses, and then with the
parsed host. -/
theorem buildURL_ret_inv (s defaultPath : GoString) (u : URL)
    (h : buildURL s defaultPath = .ret u) :
    ∃ pu, Parse (str "https://" ++ s) = .ok pu ∧ u.Host = pu.Host ∧ u.Scheme = pu.Scheme := by
  unfold buildURL at h
  rcases hp : Parse (str "https://" ++ s) with e | pu
  · simp [hp] at h
  · refine ⟨pu, rfl, ?_⟩
    simp only [hp, Outcome.ret.injEq] at h
    subst h
    split <;> simp

/-- `buildOdohProxyURL` returns only when the proxy address parses, and then
with the parsed host of the proxy. -/
theorem buildOdohProxyURL_ret_inv (proxy target : GoString) (u : URL)
    (h : buildOdohProxyURL proxy target = .ret u) :
    ∃ pu, Parse (str "https://" ++ proxy) = .ok pu ∧ u.Host = pu.Host ∧ u.Scheme = pu.Scheme := by
  unfold buildOdohProxyURL at h
  rcases hp : buildURL proxy ODOH_PROXY_DEFAULT_PATH with p | e | c
  · rcases ht : buildOdohTargetURL target with t | e | c
    · simp only [hp, ht, Outcome.bind, Outcome.ret.injEq] at h
      obtain ⟨pu, h1, h2, h3⟩ := buildURL_ret_inv _ _ _ hp
      exact ⟨pu, h1, by rw [← h]; exact h2, by rw [← h]; exact h3⟩
    · simp [hp, ht, Outcome.bind] at h
    · simp [hp, ht, Outcome.bind] at h
  · simp [hp, Outcome.bind] at h
  · simp [hp, Outcome.bind] at h

theorem Parse_https_scheme (s : GoString) (u : URL)
    (h : Parse (str "https://" ++ s) = .ok u) : u.Scheme = str "https" := by
  obtain ⟨_, _, _, _, _, _, _, _, _, _, hs, _⟩ := Parse_https_inv s u h
  exact hs

theorem QueryEscape_of_bareHost (s : GoString) (h : bareHost s = true) : QueryEscape s = s :=
  escape_of_bareHost s h _

/-- The query string `buildOdohProxyURL` writes when the proxy address came
with no query: the two parameters, escaped. -/
theorem Encode_target_parameters (host : GoString) :
    Values.Encode (Values.Set (Values.Set [] (str "targethost") host) (str "targetpath")
        (str "/dns-query"))
      = str "targethost=" ++ QueryEscape host ++ str "&targetpath=%2Fdns-query" := by
  have h1 : (str "targethost" = str "targetpath") = False := by decide
  have h2 : Strings.less (str "targetpath") (str "targethost") = false := by decide
  have h3 : QueryEscape (str "targethost") = str "targethost" := by decide
  have h4 : QueryEscape (str "targetpath") = str "targetpath" := by decide
  have h5 : QueryEscape (str "/dns-query") = str "%2Fdns-query" := by decide
  have h6 : str "targethost=" = str "targethost" ++ [61] := by decide
  have h7 : str "&targetpath=%2Fdns-query" = [38] ++ (str "targetpath" ++ [61] ++ str "%2Fdns-query") := by
    decide
  simp only [Values.Encode, Values.Set, Values.assign, h1, if_false, List.map, Values.sortKeys,
    Values.insertKey, h2, Values.encodePairs, Values.lookup, if_true, Values.encodeKey,
    List.append_nil, List.cons_append, List.nil_append, Values.joinAmp, h3, h4, h5, h6, h7,
    List.append_assoc, Bool.false_eq_true]

/-- Claim C3, amended (direct-mode URL defaulting). For a target that parses
(after `https://`) with an empty path, `buildOdohTargetURL` returns the parsed
URL with the path `/dns-query`; its scheme is `https` and its host is the host
`url.Parse` read from the target (user info, query and fragment of the target
are not part of it). For a target that parses with a path, the parsed URL is
returned as it is, path included. For a target that is a bare host name
(letters, digits, `-`, `.`, `_`, `~`), the host is the target itself. -/
theorem buildOdohTargetURL_default_path (target : GoString) :
    (∀ u, Parse (str "https://" ++ target) = .ok u → u.Path = [] →
      buildOdohTargetURL target = .ret { u with Path := str "/dns-query" } ∧
      u.Scheme = str "https") ∧
    (∀ u, Parse (str "https://" ++ target) = .ok u → u.Path ≠ [] →
      buildOdohTargetURL target = .ret u ∧ u.Scheme = str "https") ∧
    (bareHost target = true →
      buildOdohTargetURL target
        = .ret { Scheme := str "https", Host := target, Path := str "/dns-query" }) := by
  refine ⟨fun u hu hp => ?_, fun u hu hp => ?_, fun hb => ?_⟩
  · rw [buildOdohTargetURL, buildURL_of_parse _ _ _ hu]
    exact ⟨by simp [hp, ODOH_DEFAULT_PATH], Parse_https_scheme _ _ hu⟩
  · rw [buildOdohTargetURL, buildURL_of_parse _ _ _ hu]
    exact ⟨by simp [hp], Parse_https_scheme _ _ hu⟩
  · rw [buildOdohTargetURL, buildURL_of_parse _ _ _ (Parse_of_bareHost target hb)]
    simp [ODOH_DEFAULT_PATH]

/-- Claim C4, amended (proxy-mode URL defaulting). For a proxy address that
parses with no path and no query and a target that parses with no path,
`buildOdohProxyURL` returns the parsed proxy URL (scheme `https`) with the path
`/proxy` and the query string `targethost=<host>&targetpath=%2Fdns-query`, the
host of the target query-escaped and the `/` of the path written `%2F`. For
bare host names `p` and `t` this is host `p`, path `/proxy` and query
`targethost=<t>&targetpath=%2Fdns-query`. -/
theorem buildOdohProxyURL_defaults (proxy target : GoString) :
    (∀ pu tu, Parse (str "https://" ++ proxy) = .ok pu → pu.Path = [] → pu.RawQuery = [] →
      Parse (str "https://" ++ target) = .ok tu → tu.Path = [] →
      buildOdohProxyURL proxy target
        = .ret { pu with Path := str "/proxy",
                         RawQuery := str "targethost=" ++ QueryEscape tu.Host
                           ++ str "&targetpath=%2Fdns-query" } ∧
      pu.Scheme = str "https") ∧
    (bareHost proxy = true → bareHost target = true →
      buildOdohProxyURL proxy target
        = .ret { Scheme := str "https", Host := proxy, Path := str "/proxy",
                 RawQuery := str "targethost=" ++ target
                   ++ str "&targetpath=%2Fdns-query" }) := by
  have key : ∀ pu tu, Parse (str "https://" ++ proxy) = .ok pu → pu.Path = [] →
      pu.RawQuery = [] → Parse (str "https://" ++ target) = .ok tu → tu.Path = [] →
      buildOdohProxyURL proxy target
        = .ret { pu with Path := str "/proxy",
                         RawQuery := str "targethost=" ++ QueryEscape tu.Host
                           ++ str "&targetpath=%2Fdns-query" } := by
    intro pu tu hpu hpp hpq htu htp
    have hq : URL.Query { pu with Path := ODOH_PROXY_DEFAULT_PATH } = [] := by
      simp [URL.Query, hpq, ParseQuery, Strings.splitByte, parseQueryStep, Strings.containsByte]
    have hg1 : Values.Get ([] : Values) (str "targethost") = [] := rfl
    have hg2 : ∀ h : GoString,
        Values.Get (Values.Set [] (str "targethost") h) (str "targetpath") = [] := by
      intro h
      have h1 : (str "targethost" = str "targetpath") = False := by decide
      simp [Values.Get, Values.Set, Values.assign, Values.lookup, h1]
    unfold buildOdohProxyURL
    rw [buildOdohTargetURL, buildURL_of_parse _ _ _ hpu, buildURL_of_parse _ _ _ htu]
    simp only [hpp, htp, if_true, Outcome.bind, hq, hg1, hg2]
    rw [show ODOH_DEFAULT_PATH = str "/dns-query" from rfl, Encode_target_parameters]
    rfl
  refine ⟨fun pu tu hpu hpp hpq htu htp =>
    ⟨key pu tu hpu hpp hpq htu htp, Parse_https_scheme _ _ hpu⟩, fun hp ht => ?_⟩
  rw [key _ _ (Parse_of_bareHost proxy hp) rfl rfl (Parse_of_bareHost target ht) rfl,
    QueryEscape_of_bareHost target ht]

theorem inv_Set (v : Values) (k value : GoString)
    (h : (v.map Prod.fst).Nodup ∧ Values.allBytes v = true) (hk : isBytes k = true)
    (hv : isBytes value = true) :
    ((Values.Set v k value).map Prod.fst).Nodup ∧ Values.allBytes (Values.Set v k value) = true :=
  ⟨nodup_assign _ _ _ h.1, allBytes_assign _ _ _ h.2 hk (by simpa using hv)⟩

theorem lookup_Set (v : Values) (k k' value : GoString) :
    Values.lookup (Values.Set v k value) k'
      = if k = k' then [value] else Values.lookup v k' :=
  lookup_assign v k k' [value]

/-- `buildOdohProxyURL` on addresses that parse: the query of the proxy
address, merged with the two parameters of the target, re-encoded. -/
theorem buildOdohProxyURL_of_parse (proxy target : GoString) (pu tu : URL)
    (hp : Parse (str "https://" ++ proxy) = .ok pu)
    (ht : Parse (str "https://" ++ target) = .ok tu) :
    ∃ q1 q2 : Values,
      q1 = (if Values.Get pu.Query (str "targethost") = []
        then Values.Set pu.Query (str "targethost") tu.Host else pu.Query) ∧
      q2 = (if Values.Get q1 (str "targetpath") = []
        then Values.Set q1 (str "targetpath")
          (if tu.Path = [] then str "/dns-query" else tu.Path)
        else q1) ∧
      buildOdohProxyURL proxy target
        = .ret { (if pu.Path = [] then { pu with Path := str "/proxy" } else pu) with
                 RawQuery := Values.Encode q2 } := by
  refine ⟨_, _, rfl, rfl, ?_⟩
  unfold buildOdohProxyURL
  rw [buildOdohTargetURL, buildURL_of_parse _ _ _ hp, buildURL_of_parse _ _ _ ht]
  simp only [Outcome.bind]
  have hq : URL.Query (if pu.Path = [] then { pu with Path := ODOH_PROXY_DEFAULT_PATH } else pu)
      = pu.Query := by
    split <;> rfl
  have hh : (if tu.Path = [] then { tu with Path := ODOH_DEFAULT_PATH } else tu).Host
      = tu.Host := by
    split <;> rfl
  have hpath : (if tu.Path = [] then { tu with Path := ODOH_DEFAULT_PATH } else tu).Path
      = (if tu.Path = [] then str "/dns-query" else tu.Path) := by
    split <;> rfl
  rw [hq, hh, hpath]
  rfl

/-- Claim C5, amended (proxy URL merge). For a proxy address and a target
that are byte strings and parse, `buildOdohProxyURL` returns a URL whose query
string, parsed again, holds
* under `targethost` the values the proxy address gave, when the first of
  them is not empty, and the host of the target alone otherwise;
* under `targetpath` the values the proxy address gave, when the first of
  them is not empty, and the path of the target URL alone otherwise;
* under every other key the values that `ParseQuery` read from the query of
  the proxy address, the same and in the same order.
(`ParseQuery` drops the pairs it cannot decode.) -/
theorem buildOdohProxyURL_keeps_caller_parameters (proxy target : GoString) (pu tu : URL)
    (hpb : isBytes proxy = true) (htb : isBytes target = true)
    (hp : Parse (str "https://" ++ proxy) = .ok pu)
    (ht : Parse (str "https://" ++ target) = .ok tu) :
    ∃ u, buildOdohProxyURL proxy target = .ret u ∧
      (Values.Get pu.Query (str "targethost") ≠ [] →
        Values.lookup u.Query (str "targethost")
          = Values.lookup pu.Query (str "targethost")) ∧
      (Values.Get pu.Query (str "targetpath") ≠ [] →
        Values.lookup u.Query (str "targetpath")
          = Values.lookup pu.Query (str "targetpath")) ∧
      (∀ k, k ≠ str "targethost" → k ≠ str "targetpath" →
        Values.lookup u.Query k = Values.lookup pu.Query k) ∧
      (Values.Get pu.Query (str "targethost") = [] →
        Values.lookup u.Query (str "targethost") = [tu.Host]) ∧
      (Values.Get pu.Query (str "targetpath") = [] →
        Values.lookup u.Query (str "targetpath")
          = [if tu.Path = [] then str "/dns-query" else tu.Path]) := by
  obtain ⟨hpH, hpP, hpQ⟩ := Parse_https_bytes proxy pu hp hpb
  obtain ⟨htH, htP, htQ⟩ := Parse_https_bytes target tu ht htb
  have hne : str "targethost" ≠ str "targetpath" := by decide
  have hthb : isBytes (str "targethost") = true := by decide
  have htpb : isBytes (str "targetpath") = true := by decide
  have hdb : isBytes (str "/dns-query") = true := by decide
  -- the target URL and its path
  have htpath : isBytes (if tu.Path = [] then str "/dns-query" else tu.Path) = true := by
    split
    · exact hdb
    · exact htP
  -- the three maps of the merge
  have h0 := ParseQuery_inv pu.RawQuery hpQ
  have hq1 : ∀ q1 : Values, q1 = (if Values.Get pu.Query (str "targethost") = []
      then Values.Set pu.Query (str "targethost") tu.Host else pu.Query) →
      ((q1.map Prod.fst).Nodup ∧ Values.allBytes q1 = true) := by
    intro q1 hq
    subst hq
    split
    · exact inv_Set _ _ _ h0 hthb htH
    · exact h0
  have hq2 : ∀ q1 q2 : Values, q1 = (if Values.Get pu.Query (str "targethost") = []
      then Values.Set pu.Query (str "targethost") tu.Host else pu.Query) →
      q2 = (if Values.Get q1 (str "targetpath") = []
        then Values.Set q1 (str "targetpath") (if tu.Path = [] then str "/dns-query" else tu.Path)
        else q1) →
      ((q2.map Prod.fst).Nodup ∧ Values.allBytes q2 = true) := by
    intro q1 q2 hq1' hq2'
    subst hq2'
    split
    · exact inv_Set _ _ _ (hq1 q1 hq1') htpb htpath
    · exact hq1 q1 hq1'
  obtain ⟨q1, q2, e1, e2, hbuild⟩ := buildOdohProxyURL_of_parse proxy target pu tu hp ht
  have i2 := hq2 q1 q2 e1 e2
  have hround := (ParseQuery_Encode q2 i2.1 i2.2).2
  refine ⟨_, hbuild, ?_⟩
  have hQ : ∀ k, Values.lookup (URL.Query { (if pu.Path = [] then
        { pu with Path := str "/proxy" } else pu) with RawQuery := Values.Encode q2 }) k
      = Values.lookup q2 k := fun k => hround k
  simp only [hQ]
  have hget1 : Values.Get q1 (str "targetpath") = Values.Get pu.Query (str "targetpath") := by
    rw [e1]
    split
    · simp only [Values.Get, lookup_Set, hne, if_false]
    · rfl
  have hl2 : ∀ k, Values.lookup q2 k
      = if Values.Get pu.Query (str "targetpath") = [] ∧ str "targetpath" = k
        then [if tu.Path = [] then str "/dns-query" else tu.Path]
        else if Values.Get pu.Query (str "targethost") = [] ∧ str "targethost" = k
          then [tu.Host] else Values.lookup pu.Query k := by
    intro k
    rw [e2, hget1]
    by_cases hg2 : Values.Get pu.Query (str "targetpath") = []
    · simp only [hg2, if_true, lookup_Set, true_and]
      by_cases hk : str "targetpath" = k
      · simp [hk]
      · simp only [hk, if_false, e1]
        by_cases hg1 : Values.Get pu.Query (str "targethost") = []
        · simp only [hg1, if_true, lookup_Set, true_and]
        · simp only [hg1, if_false, false_and]
    · simp only [hg2, if_false, false_and, e1]
      by_cases hg1 : Values.Get pu.Query (str "targethost") = []
      · simp only [hg1, if_true, lookup_Set, true_and]
      · simp only [hg1, if_false, false_and]
  refine ⟨fun h => ?_, fun h => ?_, fun k h1 h2 => ?_, fun h => ?_, fun h => ?_⟩
  · rw [hl2]
    simp [h, Ne.symm hne]
  · rw [hl2]
    simp [h, hne]
  · rw [hl2]
    simp [Ne.symm h1, Ne.symm h2]
  · rw [hl2]
    simp [h, Ne.symm hne]
  · rw [hl2]
    simp [h]

end UrlConstruction

/-! ## URL construction at concrete addresses -/

section UrlExamples

/-- Claim C3 as stated fails for the target `example.com?x=1`: it parses
with an empty path, and the host of the URL built is `example.com`, not the
target. -/
theorem buildOdohTargetURL_host_is_not_target :
    Parse (str "https://" ++ str "example.com?x=1")
      = .ok { Scheme := str "https", Host := str "example.com", RawQuery := str "x=1" } ∧
    buildOdohTargetURL (str "example.com?x=1")
      = .ret { Scheme := str "https", Host := str "example.com", Path := str "/dns-query",
               RawQuery := str "x=1" } ∧
    str "example.com" ≠ str "example.com?x=1" := by
  refine ⟨by decide!, by decide!, by decide!⟩

/-- Claim C3 (amended) at a target with a port, a target with a path and a
bare host name. -/
theorem buildOdohTargetURL_default_path_witness :
    buildOdohTargetURL (str "example.com:8443")
      = .ret { Scheme := str "https", Host := str "example.com:8443",
               Path := str "/dns-query" } ∧
    buildOdohTargetURL (str "dns.example/custom%20path")
      = .ret { Scheme := str "https", Host := str "dns.example", Path := str "/custom path" } ∧
    buildOdohTargetURL (str "example.com")
      = .ret { Scheme := str "https", Host := str "example.com", Path := str "/dns-query" } :=
  ⟨((buildOdohTargetURL_default_path (str "example.com:8443")).1
      { Scheme := str "https", Host := str "example.com:8443" } (by decide!) rfl).1,
   ((buildOdohTargetURL_default_path (str "dns.example/custom%20path")).2.1
      { Scheme := str "https", Host := str "dns.example", Path := str "/custom path" }
      (by decide!) (by decide!)).1,
   (buildOdohTargetURL_default_path (str "example.com")).2.2 (by decide!)⟩

/-- Claim C4 as stated fails at its own example: for the proxy `p.example`
and the target `example.com` the query string is
`targethost=example.com&targetpath=%2Fdns-query`, not
`targethost=example.com&targetpath=/dns-query`. -/
theorem buildOdohProxyURL_query_is_escaped :
    buildOdohProxyURL (str "p.example") (str "example.com")
      = .ret { Scheme := str "https", Host := str "p.example", Path := str "/proxy",
               RawQuery := str "targethost=example.com&targetpath=%2Fdns-query" } ∧
    str "targethost=example.com&targetpath=%2Fdns-query"
      ≠ str "targethost=example.com&targetpath=/dns-query" := by
  refine ⟨by decide!, by decide!⟩

/-- Claim C4 (amended) at a proxy with a port and an IPv6 target, and at the
bare host names `p.example` and `example.com`. -/
theorem buildOdohProxyURL_defaults_witness :
    buildOdohProxyURL (str "p.example:8443") (str "[2001:db8::1]:443")
      = .ret { Scheme := str "https", Host := str "p.example:8443", Path := str "/proxy",
               RawQuery := str "targethost=" ++ QueryEscape (str "[2001:db8::1]:443")
                 ++ str "&targetpath=%2Fdns-query" } ∧
    buildOdohProxyURL (str "p.example") (str "example.com")
      = .ret { Scheme := str "https", Host := str "p.example", Path := str "/proxy",
               RawQuery := str "targethost=" ++ str "example.com"
                 ++ str "&targetpath=%2Fdns-query" } :=
  ⟨((buildOdohProxyURL_defaults (str "p.example:8443") (str "[2001:db8::1]:443")).1
      { Scheme := str "https", Host := str "p.example:8443" }
      { Scheme := str "https", Host := str "[2001:db8::1]:443" }
      (by decide!) rfl rfl (by decide!) rfl).1,
   (buildOdohProxyURL_defaults (str "p.example") (str "example.com")).2
      (by decide!) (by decide!)⟩

/-- Claim C5 as stated fails for the proxy address
`p.example/proxy?targethost=&targethost=keep.example&a=%zz&b=1`: its query
holds `targethost` twice, the first value empty, and the result holds the host
of the target alone under `targethost`; the pair `a=%zz` is gone. -/
theorem buildOdohProxyURL_overwrites_caller_values :
    Parse (str "https://"
        ++ str "p.example/proxy?targethost=&targethost=keep.example&a=%zz&b=1")
      = .ok { Scheme := str "https", Host := str "p.example", Path := str "/proxy",
              RawQuery := str "targethost=&targethost=keep.example&a=%zz&b=1" } ∧
    Values.lookup (URL.Query
        { RawQuery := str "targethost=&targethost=keep.example&a=%zz&b=1" })
        (str "targethost") = [[], str "keep.example"] ∧
    buildOdohProxyURL (str "p.example/proxy?targethost=&targethost=keep.example&a=%zz&b=1")
        (str "example.com")
      = .ret { Scheme := str "https", Host := str "p.example", Path := str "/proxy",
               RawQuery := str "b=1&targethost=example.com&targetpath=%2Fdns-query" } ∧
    Values.lookup (URL.Query
        { RawQuery := str "b=1&targethost=example.com&targetpath=%2Fdns-query" })
        (str "targethost") = [str "example.com"] := by
  refine ⟨by decide!, by decide!, by decide!, by decide!⟩

/-- Claim C5 (amended) at the proxy address `relayAddress`, which brings
`targethost`, a key with two values and an escaped value. -/
theorem buildOdohProxyURL_keeps_caller_parameters_witness :
    ∃ u, buildOdohProxyURL relayAddress (str "example.com") = .ret u ∧
      (Values.Get relayURL.Query (str "targethost") ≠ [] →
        Values.lookup u.Query (str "targethost")
          = Values.lookup relayURL.Query (str "targethost")) ∧
      (Values.Get relayURL.Query (str "targetpath") ≠ [] →
        Values.lookup u.Query (str "targetpath")
          = Values.lookup relayURL.Query (str "targetpath")) ∧
      (∀ k, k ≠ str "targethost" → k ≠ str "targetpath" →
        Values.lookup u.Query k = Values.lookup relayURL.Query k) ∧
      (Values.Get relayURL.Query (str "targethost") = [] →
        Values.lookup u.Query (str "targethost")
          = [({ Scheme := str "https", Host := str "example.com" } : URL).Host]) ∧
      (Values.Get relayURL.Query (str "targetpath") = [] →
        Values.lookup u.Query (str "targetpath")
          = [if ({ Scheme := str "https", Host := str "example.com" } : URL).Path = []
              then str "/dns-query"
              else ({ Scheme := str "https", Host := str "example.com" } : URL).Path]) :=
  buildOdohProxyURL_keeps_caller_parameters relayAddress (str "example.com") relayURL
    { Scheme := str "https", Host := str "example.com" }
    (by decide!) (by decide!) (by decide!) (by decide!)

end UrlExamples

/-! ## The exchange: claims C1, C2, C6, C7, C8, C9, C10 -/

section Exchange

variable {Msg Ctx Contents Qry Dns E : Type}


/-- What `resolveObliviousQuery` does once the request is prepared and
`client.Do` has returned a response and no error. -/
theorem resolve_of_response (L : Lib Msg Ctx Contents Qry Dns E)
    (w : World Msg Ctx Contents E) (query : Msg) (useProxy : Bool)
    (targetIP proxy proxyHost : GoString) (req : Request) (resp : Response E)
    (hreq : prepareHttpRequest L (L.Marshal query) useProxy targetIP proxy = .ret (some req, none))
    (hdo : L.clientDo { CheckRedirect := some neverFollow }
      { req with Host := proxyHost } = (some resp, none)) :
    resolveObliviousQuery L w query useProxy targetIP proxy proxyHost =
      match resp.Body with
      | (_, some err) =>
        ({ client := { CheckRedirect := some neverFollow },
           trace := w.trace ++ [.clientDo { CheckRedirect := some neverFollow }
             { req with Host := proxyHost }, .ReadAll] }, .ret (L.zeroMsg, some err))
      | (bodyBytes, none) =>
        if Header.Get resp.Header (str "Content-Type") ≠ OBLIVIOUS_DOH_CONTENT_TYPE then
          ({ client := { CheckRedirect := some neverFollow },
             trace := w.trace ++ [.clientDo { CheckRedirect := some neverFollow }
               { req with Host := proxyHost }, .ReadAll] },
           .ret (L.zeroMsg, some (contentTypeError targetIP bodyBytes)))
        else
          ({ client := { CheckRedirect := some neverFollow },
             trace := w.trace ++ [.clientDo { CheckRedirect := some neverFollow }
               { req with Host := proxyHost }, .ReadAll, .UnmarshalDNSMessage bodyBytes] },
           .ret (match L.UnmarshalDNSMessage bodyBytes with
                 | (_, some err) => (L.zeroMsg, some err)
                 | (m, none) => (m, none))) := by
  unfold resolveObliviousQuery
  simp only [hreq, hdo, World.log]
  rcases hb : resp.Body with ⟨b, _ | e⟩
  · simp only []
    split
    · simp
    · simp only [List.append_assoc, List.cons_append, List.nil_append]
      rcases hu : L.UnmarshalDNSMessage b with ⟨m, _ | e⟩ <;> simp
  · simp

/-- Claim C1 (content-type enforcement in `resolveObliviousQuery`). Once the
request is prepared and `client.Do` has returned a response and no error:
* if the `Content-Type` header of the response is not exactly
  `application/oblivious-dns-message` (another type, no header at all, the media
  type with parameters), the call returns the empty message with an error,
  whatever the body; its log ends with the read of the body, so
  `odoh.UnmarshalDNSMessage` is not called; and for every body that was read in
  full the error is the `fmt.Errorf` value whose message holds the target name
  and that body;
* if the header is exactly the media type, the result is what unmarshalling the
  body yields: the message, or the empty message with the unmarshalling error. -/
theorem resolveObliviousQuery_content_type_enforced (L : Lib Msg Ctx Contents Qry Dns E)
    (w : World Msg Ctx Contents E) (query : Msg) (useProxy : Bool)
    (targetIP proxy proxyHost : GoString) (req : Request) (resp : Response E)
    (hreq : prepareHttpRequest L (L.Marshal query) useProxy targetIP proxy = .ret (some req, none))
    (hdo : L.clientDo { CheckRedirect := some neverFollow }
      { req with Host := proxyHost } = (some resp, none)) :
    (Header.Get resp.Header (str "Content-Type") ≠ OBLIVIOUS_DOH_CONTENT_TYPE →
      (∃ err, (resolveObliviousQuery L w query useProxy targetIP proxy proxyHost).2
          = .ret (L.zeroMsg, some err)) ∧
      (resolveObliviousQuery L w query useProxy targetIP proxy proxyHost).1.trace
          = w.trace ++ [.clientDo { CheckRedirect := some neverFollow }
              { req with Host := proxyHost }, .ReadAll] ∧
      ∀ bodyBytes, resp.Body = (bodyBytes, none) →
        (resolveObliviousQuery L w query useProxy targetIP proxy proxyHost).2
          = .ret (L.zeroMsg, some (.errorf (str "did not obtain the correct headers from "
              ++ targetIP ++ str " with response " ++ bodyBytes)))) ∧
    (Header.Get resp.Header (str "Content-Type") = OBLIVIOUS_DOH_CONTENT_TYPE →
      ∀ bodyBytes, resp.Body = (bodyBytes, none) →
        (resolveObliviousQuery L w query useProxy targetIP proxy proxyHost).2
          = .ret (match L.UnmarshalDNSMessage bodyBytes with
                  | (_, some err) => (L.zeroMsg, some err)
                  | (odohQueryResponse, none) => (odohQueryResponse, none))) := by
  rw [resolve_of_response L w query useProxy targetIP proxy proxyHost req resp hreq hdo]
  refine ⟨fun hct => ?_, fun hct b hb => ?_⟩
  · rcases hb : resp.Body with ⟨b, _ | e⟩
    · simp [hct, contentTypeError]
    · simp
  · simp [hb, hct]

/-- What `resolveObliviousQuery` does when the request cannot be prepared:
nothing is sent and the client is left as it was. -/
theorem resolve_of_no_request (L : Lib Msg Ctx Contents Qry Dns E)
    (w : World Msg Ctx Contents E) (query : Msg) (useProxy : Bool)
    (targetIP proxy proxyHost : GoString)
    (hreq : ∀ req, prepareHttpRequest L (L.Marshal query) useProxy targetIP proxy
      ≠ .ret (some req, none)) :
    (resolveObliviousQuery L w query useProxy targetIP proxy proxyHost).1 = w := by
  unfold resolveObliviousQuery
  rcases hp : prepareHttpRequest L (L.Marshal query) useProxy targetIP proxy with
    ⟨_ | req, _ | err⟩ | e | c
  · simp only [hp]
  · simp only [hp]
  · exact absurd hp (hreq req)
  · simp only [hp]
  · simp only [hp]
  · simp only [hp]

/-- The log of `resolveObliviousQuery` once the request is prepared: one
`client.Do` call, made with the redirect policy installed, and after it
nothing but the read of the body and the unmarshalling. -/
theorem resolve_trace_of_request (L : Lib Msg Ctx Contents Qry Dns E)
    (w : World Msg Ctx Contents E) (query : Msg) (useProxy : Bool)
    (targetIP proxy proxyHost : GoString) (req : Request)
    (hreq : prepareHttpRequest L (L.Marshal query) useProxy targetIP proxy = .ret (some req, none)) :
    (resolveObliviousQuery L w query useProxy targetIP proxy proxyHost).1.client.CheckRedirect
        = some neverFollow ∧
    ∃ rest, (resolveObliviousQuery L w query useProxy targetIP proxy proxyHost).1.trace
        = w.trace ++ .clientDo { CheckRedirect := some neverFollow }
            { req with Host := proxyHost } :: rest ∧ countDo rest = 0 := by
  rcases hdo : L.clientDo { CheckRedirect := some neverFollow }
      { req with Host := proxyHost } with ⟨_ | resp, _ | err⟩
  · unfold resolveObliviousQuery
    simp only [hreq, hdo, World.log]
    refine ⟨?_, [], ?_, rfl⟩ <;> simp
  · unfold resolveObliviousQuery
    simp only [hreq, hdo, World.log]
    refine ⟨?_, [], ?_, rfl⟩ <;> simp
  · rw [resolve_of_response L w query useProxy targetIP proxy proxyHost req resp hreq hdo]
    rcases resp.Body with ⟨b, _ | e⟩
    · by_cases hct : Header.Get resp.Header (str "Content-Type") ≠ OBLIVIOUS_DOH_CONTENT_TYPE
      · refine ⟨?_, [.ReadAll], ?_, rfl⟩ <;> simp [hct]
      · refine ⟨?_, [.ReadAll, .UnmarshalDNSMessage b], ?_, rfl⟩ <;> simp [hct]
    · refine ⟨?_, [.ReadAll], ?_, rfl⟩ <;> simp
  · unfold resolveObliviousQuery
    simp only [hreq, hdo, World.log]
    refine ⟨?_, [], ?_, rfl⟩ <;> simp

/-- `countDo` over a concatenation. -/
theorem countDo_append (xs ys : List (Event Msg Ctx Contents E)) :
    countDo (xs ++ ys) = countDo xs + countDo ys := by
  induction xs with
  | nil => simp [countDo]
  | cons x xs ih => cases x <;> (simp [countDo, ih]; try omega)


/-- `prepareHttpRequest` returns a request only as `http.NewRequest` made it
from the URL of the delivery mode, with the two headers set. -/
theorem prepare_ret_inv (L : Lib Msg Ctx Contents Qry Dns E) (body : GoString)
    (useProxy : Bool) (target proxy : GoString) (req : Request) (err : Option (GoError E))
    (h : prepareHttpRequest L body useProxy target proxy = .ret (some req, err)) :
    ∃ u r0, (if useProxy then buildOdohProxyURL proxy target else buildOdohTargetURL target)
        = .ret u ∧
      L.NewRequest MethodPost (L.urlString u) body = (some r0, err) ∧
      req = { r0 with Header := Header.Set (Header.Set r0.Header (str "Content-Type")
        OBLIVIOUS_DOH_CONTENT_TYPE) (str "Accept") OBLIVIOUS_DOH_CONTENT_TYPE } := by
  unfold prepareHttpRequest at h
  rcases hu : (if useProxy then buildOdohProxyURL proxy target else buildOdohTargetURL target)
    with u | e | c
  · rw [hu] at h
    simp only [Outcome.bind] at h
    rcases hn : L.NewRequest MethodPost (L.urlString u) body with ⟨_ | r0, err0⟩
    · simp [hn] at h
    · simp only [hn, Outcome.ret.injEq, Prod.mk.injEq, Option.some.injEq] at h
      exact ⟨u, r0, rfl, by rw [hn, h.2], h.1.symm⟩
  · rw [hu] at h; simp [Outcome.bind] at h
  · rw [hu] at h; simp [Outcome.bind] at h

/-- Claim C10 (host override in both delivery modes). For either value of
`useProxy` and every `proxyHost`: when the request is prepared, the request
handed to `client.Do` has `Host = proxyHost`, and its URL is the one
`http.NewRequest` made of the string of `u`, where `u` is the proxy URL
(`buildOdohProxyURL`) when `useProxy` is true and the target URL
(`buildOdohTargetURL`) when it is false; the host of `u` is the host
`url.Parse` reads from the proxy address, respectively the target address. So
the URL carries the proxy's or the target's host (as far as `http.NewRequest`
keeps the host of the URL string it is given), while the `Host` field is
`proxyHost` either way. -/
theorem resolveObliviousQuery_host_override (L : Lib Msg Ctx Contents Qry Dns E)
    (w : World Msg Ctx Contents E) (query : Msg) (useProxy : Bool)
    (targetIP proxy proxyHost : GoString) (req : Request)
    (hreq : prepareHttpRequest L (L.Marshal query) useProxy targetIP proxy
      = .ret (some req, none)) :
    ∃ pu u r0 sent rest,
      Parse (str "https://" ++ (if useProxy then proxy else targetIP)) = .ok pu ∧
      (if useProxy then buildOdohProxyURL proxy targetIP else buildOdohTargetURL targetIP)
        = .ret u ∧
      u.Host = pu.Host ∧
      L.NewRequest MethodPost (L.urlString u) (L.Marshal query) = (some r0, none) ∧
      (resolveObliviousQuery L w query useProxy targetIP proxy proxyHost).1.trace
        = w.trace ++ .clientDo { CheckRedirect := some neverFollow } sent :: rest ∧
      sent.URL = r0.URL ∧ sent.Host = proxyHost ∧
      (r0.URL.Host = u.Host → sent.URL.Host = pu.Host) := by
  obtain ⟨u, r0, hu, hn, hr⟩ := prepare_ret_inv L _ _ _ _ _ _ hreq
  obtain ⟨_, rest, ht, _⟩ :=
    resolve_trace_of_request L w query useProxy targetIP proxy proxyHost req hreq
  cases useProxy with
  | true =>
    obtain ⟨pu, hp, hh, _⟩ := buildOdohProxyURL_ret_inv _ _ _ (by simpa using hu)
    exact ⟨pu, u, r0, _, rest, by simpa using hp, hu, hh, hn, ht, by rw [hr], rfl,
      fun h => by rw [hr]; exact h.trans hh⟩
  | false =>
    obtain ⟨pu, hp, hh, _⟩ := buildURL_ret_inv _ _ _ (by simpa [buildOdohTargetURL] using hu)
    exact ⟨pu, u, r0, _, rest, by simpa using hp, hu, hh, hn, ht, by rw [hr], rfl,
      fun h => by rw [hr]; exact h.trans hh⟩

/-- Claim C8 (redirects are never followed). The function assigned to
`client.CheckRedirect` returns `http.ErrUseLastResponse` for every request and
every history. A call of `resolveObliviousQuery` adds at most one `client.Do`
call to the log; when the request is prepared it adds exactly one, made with
that policy installed on the client, and the client keeps the policy. A
response with a 3xx status that `client.Do` hands back goes to the content-type
check like any other: it is rejected when its `Content-Type` differs from the
media type and unmarshalled when it is equal. -/
theorem resolveObliviousQuery_never_follows_redirects (L : Lib Msg Ctx Contents Qry Dns E)
    (w : World Msg Ctx Contents E) (query : Msg) (useProxy : Bool)
    (targetIP proxy proxyHost : GoString) :
    (∀ (r : Request) (via : List Request),
      (neverFollow r via : Option (GoError E)) = some .ErrUseLastResponse) ∧
    countDo (resolveObliviousQuery L w query useProxy targetIP proxy proxyHost).1.trace
      ≤ countDo w.trace + 1 ∧
    (∀ req, prepareHttpRequest L (L.Marshal query) useProxy targetIP proxy
        = .ret (some req, none) →
      (resolveObliviousQuery L w query useProxy targetIP proxy proxyHost).1.client.CheckRedirect
        = some neverFollow ∧
      countDo (resolveObliviousQuery L w query useProxy targetIP proxy proxyHost).1.trace
        = countDo w.trace + 1 ∧
      ∃ rest, (resolveObliviousQuery L w query useProxy targetIP proxy proxyHost).1.trace
        = w.trace ++ .clientDo { CheckRedirect := some neverFollow }
            { req with Host := proxyHost } :: rest ∧ countDo rest = 0) ∧
    (∀ req resp bodyBytes, prepareHttpRequest L (L.Marshal query) useProxy targetIP proxy
        = .ret (some req, none) →
      L.clientDo { CheckRedirect := some neverFollow } { req with Host := proxyHost }
        = (some resp, none) →
      300 ≤ resp.StatusCode → resp.StatusCode < 400 → resp.Body = (bodyBytes, none) →
      (resolveObliviousQuery L w query useProxy targetIP proxy proxyHost).2
        = if Header.Get resp.Header (str "Content-Type") ≠ OBLIVIOUS_DOH_CONTENT_TYPE then
            .ret (L.zeroMsg, some (contentTypeError targetIP bodyBytes))
          else .ret (match L.UnmarshalDNSMessage bodyBytes with
                     | (_, some err) => (L.zeroMsg, some err)
                     | (odohQueryResponse, none) => (odohQueryResponse, none))) := by
  have key : ∀ req, prepareHttpRequest L (L.Marshal query) useProxy targetIP proxy
        = .ret (some req, none) →
      (resolveObliviousQuery L w query useProxy targetIP proxy proxyHost).1.client.CheckRedirect
        = some neverFollow ∧
      countDo (resolveObliviousQuery L w query useProxy targetIP proxy proxyHost).1.trace
        = countDo w.trace + 1 ∧
      ∃ rest, (resolveObliviousQuery L w query useProxy targetIP proxy proxyHost).1.trace
        = w.trace ++ .clientDo { CheckRedirect := some neverFollow }
            { req with Host := proxyHost } :: rest ∧ countDo rest = 0 := by
    intro req hreq
    obtain ⟨hc, rest, ht, h0⟩ :=
      resolve_trace_of_request L w query useProxy targetIP proxy proxyHost req hreq
    refine ⟨hc, ?_, rest, ht, h0⟩
    rw [ht, countDo_append]
    simp [countDo, h0]
  refine ⟨fun _ _ => rfl, ?_, key, ?_⟩
  · by_cases h : ∃ req, prepareHttpRequest L (L.Marshal query) useProxy targetIP proxy
        = .ret (some req, none)
    · obtain ⟨req, hreq⟩ := h
      exact le_of_eq (key req hreq).2.1
    · rw [resolve_of_no_request L w query useProxy targetIP proxy proxyHost
        (fun req hreq => h ⟨req, hreq⟩)]
      omega
  · intro req resp bodyBytes hreq hdo _ _ hb
    rw [resolve_of_response L w query useProxy targetIP proxy proxyHost req resp hreq hdo, hb]
    simp only []
    split <;> rfl


/-- Claim C9 (status-code independence). Two responses with the same
`Content-Type` header and the same body give the same result of
`resolveObliviousQuery` (message, error, log and client), whatever their
status codes. In particular a response whose status is not 200 and whose
`Content-Type` is the media type is unmarshalled as a protocol message. -/
theorem resolveObliviousQuery_status_code_independent (L : Lib Msg Ctx Contents Qry Dns E)
    (w : World Msg Ctx Contents E) (query : Msg) (useProxy : Bool)
    (targetIP proxy proxyHost : GoString) (resp₁ resp₂ : Response E)
    (hct : Header.Get resp₁.Header (str "Content-Type")
      = Header.Get resp₂.Header (str "Content-Type"))
    (hbody : resp₁.Body = resp₂.Body) :
    resolveObliviousQuery { L with clientDo := fun _ _ => (some resp₁, none) }
        w query useProxy targetIP proxy proxyHost
      = resolveObliviousQuery { L with clientDo := fun _ _ => (some resp₂, none) }
        w query useProxy targetIP proxy proxyHost ∧
    ∀ req bodyBytes,
      prepareHttpRequest L (L.Marshal query) useProxy targetIP proxy = .ret (some req, none) →
      resp₁.StatusCode ≠ 200 →
      Header.Get resp₁.Header (str "Content-Type") = OBLIVIOUS_DOH_CONTENT_TYPE →
      resp₁.Body = (bodyBytes, none) →
      (resolveObliviousQuery { L with clientDo := fun _ _ => (some resp₁, none) }
        w query useProxy targetIP proxy proxyHost).2
        = .ret (match L.UnmarshalDNSMessage bodyBytes with
                | (_, some err) => (L.zeroMsg, some err)
                | (odohQueryResponse, none) => (odohQueryResponse, none)) := by
  constructor
  · rcases hp : prepareHttpRequest L (L.Marshal query) useProxy targetIP proxy with
      ⟨_ | req, _ | err⟩ | e | c
    · unfold resolveObliviousQuery
      simp only [prepareHttpRequest] at hp ⊢
      simp only [hp]
    · unfold resolveObliviousQuery
      simp only [prepareHttpRequest] at hp ⊢
      simp only [hp]
    · rw [resolve_of_response { L with clientDo := fun _ _ => (some resp₁, none) }
          w query useProxy targetIP proxy proxyHost req resp₁ hp rfl,
        resolve_of_response { L with clientDo := fun _ _ => (some resp₂, none) }
          w query useProxy targetIP proxy proxyHost req resp₂ hp rfl, hct, hbody]
    · unfold resolveObliviousQuery
      simp only [prepareHttpRequest] at hp ⊢
      simp only [hp]
    · unfold resolveObliviousQuery
      simp only [prepareHttpRequest] at hp ⊢
      simp only [hp]
    · unfold resolveObliviousQuery
      simp only [prepareHttpRequest] at hp ⊢
      simp only [hp]
  · intro req bodyBytes hreq _ hc hb
    rw [resolve_of_response { L with clientDo := fun _ _ => (some resp₁, none) }
      w query useProxy targetIP proxy proxyHost req resp₁ hreq rfl, hb]
    simp [hc]

/-- Claim C6 (transport errors), as the code behaves: when `client.Do` returns
an error and no response, `resolveObliviousQuery` does not return that error.
It reads `resp.Request` of the nil response first (line 147) and stops with a
nil dereference; so does `sendODoHRequest` that called it. -/
theorem transport_error_stops_at_nil_response (L : Lib Msg Ctx Contents Qry Dns E)
    (w : World Msg Ctx Contents E) (query : Msg) (useProxy : Bool)
    (targetIP proxy proxyHost : GoString) (req : Request) (err : GoError E)
    (hreq : prepareHttpRequest L (L.Marshal query) useProxy targetIP proxy
      = .ret (some req, none))
    (hdo : L.clientDo { CheckRedirect := some neverFollow } { req with Host := proxyHost }
      = (none, some err)) :
    (resolveObliviousQuery L w query useProxy targetIP proxy proxyHost).2
      = .crash .nilDereference ∧
    ∀ (dnsMessage : GoString) (config : ObliviousDoHConfig Contents)
      (configs : List (ObliviousDoHConfig Contents)) (queryContext : Ctx),
      L.EncryptQuery config.Contents (L.CreateObliviousDNSQuery dnsMessage 0)
        = (query, queryContext, none) →
      (sendODoHRequest L w dnsMessage ⟨config :: configs⟩ useProxy targetIP proxy
        proxyHost).2 = .crash .nilDereference := by
  have key : ∀ w' : World Msg Ctx Contents E,
      (resolveObliviousQuery L w' query useProxy targetIP proxy proxyHost).2
        = .crash .nilDereference := by
    intro w'
    unfold resolveObliviousQuery
    simp only [hreq, hdo]
  refine ⟨key w, ?_⟩
  intro dnsMessage config configs queryContext henc
  unfold sendODoHRequest
  simp only [createOdohQuestion, henc]
  have h2 := key (w.log (.EncryptQuery config.Contents dnsMessage))
  rcases hres : resolveObliviousQuery L (w.log (.EncryptQuery config.Contents dnsMessage))
    query useProxy targetIP proxy proxyHost with ⟨w2, out⟩
  rw [hres] at h2
  simp only at h2
  subst h2
  rfl

/-- Claim C2, amended (end-to-end pairing in `sendODoHRequest`). For a config
set with a first entry and every query `Q`: the query is encrypted under the
contents of the first entry, and the context that opens the answer is the one
that encryption returned (both are in the log). If the exchange then returns a
response with the protocol content type whose body unmarshals to a message
that this context opens to `Q`, `sendODoHRequest` returns what
`parseDnsResponse(Q)` yields: the unpacked message and no error when `Q`
unpacks, and no message with the unpacking error when it does not. -/
theorem sendODoHRequest_echo (L : Lib Msg Ctx Contents Qry Dns E)
    (w : World Msg Ctx Contents E) (Q : GoString) (config : ObliviousDoHConfig Contents)
    (configs : List (ObliviousDoHConfig Contents)) (useproxy : Bool)
    (targetName proxy proxyHost : GoString) (odohQuery : Msg) (queryContext : Ctx)
    (req : Request) (resp : Response E) (bodyBytes : GoString) (message : Msg)
    (henc : L.EncryptQuery config.Contents (L.CreateObliviousDNSQuery Q 0)
      = (odohQuery, queryContext, none))
    (hreq : prepareHttpRequest L (L.Marshal odohQuery) useproxy targetName proxy
      = .ret (some req, none))
    (hdo : L.clientDo { CheckRedirect := some neverFollow } { req with Host := proxyHost }
      = (some resp, none))
    (hct : Header.Get resp.Header (str "Content-Type") = OBLIVIOUS_DOH_CONTENT_TYPE)
    (hbody : resp.Body = (bodyBytes, none))
    (hun : L.UnmarshalDNSMessage bodyBytes = (message, none))
    (hopen : L.OpenAnswer queryContext message = (Q, none)) :
    (sendODoHRequest L w Q ⟨config :: configs⟩ useproxy targetName proxy proxyHost).2
      = .ret (match parseDnsResponse L Q with
              | (_, some err) => (none, some err)
              | (dnsResponse, none) => (some dnsResponse, none)) ∧
    (sendODoHRequest L w Q ⟨config :: configs⟩ useproxy targetName proxy proxyHost).1.trace
      = w.trace ++ [.EncryptQuery config.Contents Q,
          .clientDo { CheckRedirect := some neverFollow } { req with Host := proxyHost },
          .ReadAll, .UnmarshalDNSMessage bodyBytes, .OpenAnswer queryContext message,
          .Unpack Q] := by
  unfold sendODoHRequest
  simp only [createOdohQuestion, henc]
  rw [resolve_of_response L _ odohQuery useproxy targetName proxy proxyHost req resp hreq hdo]
  simp only [hbody, hct, hun, ne_eq, not_true_eq_false, if_false, validateEncryptedResponse,
    hopen, World.log]
  rcases hQ : parseDnsResponse L Q with ⟨m, _ | e⟩ <;> simp

/-- Claim C7, amended (URL-construction errors). When `url.Parse` rejects the
target address (direct mode), the proxy address (proxy mode) or the target
address after the proxy address parsed (proxy mode), `buildURL` ends the
process through `log.Fatalf`: `prepareHttpRequest` and `resolveObliviousQuery`
do not return, nor does `sendODoHRequest` once the query is encrypted. No error
value reaches the caller; the client is left as it was and no HTTP request is
sent. -/
theorem url_construction_failure_is_fatal (L : Lib Msg Ctx Contents Qry Dns E)
    (w : World Msg Ctx Contents E) (query : Msg) (useProxy : Bool)
    (targetIP proxy proxyHost : GoString) (e : UrlError)
    (h : (useProxy = false ∧ Parse (str "https://" ++ targetIP) = .error e) ∨
      (useProxy = true ∧ Parse (str "https://" ++ proxy) = .error e) ∨
      (useProxy = true ∧ (∃ pu, Parse (str "https://" ++ proxy) = .ok pu) ∧
        Parse (str "https://" ++ targetIP) = .error e)) :
    (∀ body, prepareHttpRequest L body useProxy targetIP proxy = .fatal e) ∧
    resolveObliviousQuery L w query useProxy targetIP proxy proxyHost = (w, .fatal e) ∧
    ∀ (dnsMessage : GoString) (config : ObliviousDoHConfig Contents)
      (configs : List (ObliviousDoHConfig Contents)) (queryContext : Ctx),
      L.EncryptQuery config.Contents (L.CreateObliviousDNSQuery dnsMessage 0)
        = (query, queryContext, none) →
      sendODoHRequest L w dnsMessage ⟨config :: configs⟩ useProxy targetIP proxy proxyHost
        = (w.log (.EncryptQuery config.Contents dnsMessage), .fatal e) := by
  have hprep : ∀ body, prepareHttpRequest L body useProxy targetIP proxy = .fatal e := by
    intro body
    unfold prepareHttpRequest
    rcases h with ⟨hu, ht⟩ | ⟨hu, hp⟩ | ⟨hu, ⟨pu, hp⟩, ht⟩
    · simp [hu, buildOdohTargetURL, buildURL_of_parse_error _ _ _ ht, Outcome.bind]
    · simp [hu, buildOdohProxyURL, buildURL_of_parse_error _ _ _ hp, Outcome.bind]
    · simp [hu, buildOdohProxyURL, buildOdohTargetURL, buildURL_of_parse _ _ _ hp,
        buildURL_of_parse_error _ _ _ ht, Outcome.bind]
  have hres : ∀ w' : World Msg Ctx Contents E,
      resolveObliviousQuery L w' query useProxy targetIP proxy proxyHost = (w', .fatal e) := by
    intro w'
    unfold resolveObliviousQuery
    simp only [hprep]
  refine ⟨hprep, hres w, ?_⟩
  intro dnsMessage config configs queryContext henc
  unfold sendODoHRequest
  simp only [createOdohQuestion, henc, hres]

end Exchange

/-! ## The exchange under the test double -/

section ExchangeExamples

/-- Claim C1 at concrete responses to a direct query for `example.com`: a
`text/plain` response, one with no `Content-Type`, and one whose media type
carries a parameter are rejected with the error that names the target and the
body; a response with the exact media type is unmarshalled. -/
theorem resolveObliviousQuery_content_type_enforced_witness :
    (resolveObliviousQuery (testLib (echo 200 (str "text/plain"))) freshWorld (str "hello")
      false (str "example.com") (str "p.example") (str "front.example")).2
      = .ret ([], some (.errorf (str "did not obtain the correct headers from "
          ++ str "example.com" ++ str " with response " ++ str "hello"))) ∧
    (resolveObliviousQuery (testLib fun req => (some ⟨200, [], (req.Body, none)⟩, none))
      freshWorld (str "hello") false (str "example.com") (str "p.example")
      (str "front.example")).2
      = .ret ([], some (.errorf (str "did not obtain the correct headers from "
          ++ str "example.com" ++ str " with response " ++ str "hello"))) ∧
    (resolveObliviousQuery
      (testLib (echo 200 (str "application/oblivious-dns-message; charset=utf-8")))
      freshWorld (str "hello") false (str "example.com") (str "p.example")
      (str "front.example")).2
      = .ret ([], some (.errorf (str "did not obtain the correct headers from "
          ++ str "example.com" ++ str " with response " ++ str "hello"))) ∧
    (resolveObliviousQuery (testLib (echo 200 OBLIVIOUS_DOH_CONTENT_TYPE)) freshWorld
      (str "hello") false (str "example.com") (str "p.example") (str "front.example")).2
      = .ret (match (testLib (echo 200 OBLIVIOUS_DOH_CONTENT_TYPE)).UnmarshalDNSMessage
            (str "hello") with
          | (_, some err) => ((testLib (echo 200 OBLIVIOUS_DOH_CONTENT_TYPE)).zeroMsg, some err)
          | (odohQueryResponse, none) => (odohQueryResponse, none)) :=
  ⟨((resolveObliviousQuery_content_type_enforced (testLib (echo 200 (str "text/plain")))
      freshWorld (str "hello") false (str "example.com") (str "p.example")
      (str "front.example") (directRequest (str "hello"))
      ⟨200, [(str "Content-Type", [str "text/plain"])], (str "hello", none)⟩
      (by decide!) (by decide!)).1 (by decide!)).2.2 (str "hello") rfl,
   ((resolveObliviousQuery_content_type_enforced
      (testLib fun req => (some ⟨200, [], (req.Body, none)⟩, none))
      freshWorld (str "hello") false (str "example.com") (str "p.example")
      (str "front.example") (directRequest (str "hello"))
      ⟨200, [], (str "hello", none)⟩
      (by decide!) (by decide!)).1 (by decide!)).2.2 (str "hello") rfl,
   ((resolveObliviousQuery_content_type_enforced
      (testLib (echo 200 (str "application/oblivious-dns-message; charset=utf-8")))
      freshWorld (str "hello") false (str "example.com") (str "p.example")
      (str "front.example") (directRequest (str "hello"))
      ⟨200, [(str "Content-Type", [str "application/oblivious-dns-message; charset=utf-8"])],
        (str "hello", none)⟩
      (by decide!) (by decide!)).1 (by decide!)).2.2 (str "hello") rfl,
   (resolveObliviousQuery_content_type_enforced (testLib (echo 200 OBLIVIOUS_DOH_CONTENT_TYPE))
      freshWorld (str "hello") false (str "example.com") (str "p.example")
      (str "front.example") (directRequest (str "hello"))
      ⟨200, [(str "Content-Type", [OBLIVIOUS_DOH_CONTENT_TYPE])], (str "hello", none)⟩
      (by decide!) (by decide!)).2 (by decide!) (str "hello") rfl⟩

/-- Claim C9 at two concrete responses, of status 200 and 503, with the same
content type and body. -/
theorem resolveObliviousQuery_status_code_independent_witness :
    (resolveObliviousQuery
        { testLib unreachable with clientDo := fun _ _ =>
            (some ⟨200, [(str "Content-Type", [OBLIVIOUS_DOH_CONTENT_TYPE])],
              (str "hello", none)⟩, none) }
        freshWorld (str "hello") true (str "example.com") (str "p.example")
        (str "front.example")).2
      = (resolveObliviousQuery
        { testLib unreachable with clientDo := fun _ _ =>
            (some ⟨503, [(str "Content-Type", [OBLIVIOUS_DOH_CONTENT_TYPE])],
              (str "hello", none)⟩, none) }
        freshWorld (str "hello") true (str "example.com") (str "p.example")
        (str "front.example")).2 :=
  congrArg Prod.snd
    (resolveObliviousQuery_status_code_independent (testLib unreachable) freshWorld
      (str "hello") true (str "example.com") (str "p.example") (str "front.example")
      ⟨200, [(str "Content-Type", [OBLIVIOUS_DOH_CONTENT_TYPE])], (str "hello", none)⟩
      ⟨503, [(str "Content-Type", [OBLIVIOUS_DOH_CONTENT_TYPE])], (str "hello", none)⟩
      rfl rfl).1

/-- Claim C8 at a proxied query answered with a 302: one `client.Do` call. -/
theorem resolveObliviousQuery_never_follows_redirects_witness :
    countDo (resolveObliviousQuery (testLib (echo 302 (str "text/html"))) freshWorld
      (str "hello") true (str "example.com") (str "p.example")
      (str "front.example")).1.trace = countDo freshWorld.trace + 1 :=
  ((resolveObliviousQuery_never_follows_redirects (testLib (echo 302 (str "text/html")))
    freshWorld (str "hello") true (str "example.com") (str "p.example")
    (str "front.example")).2.2.1 (proxiedRequest (str "hello")) (by decide!)).2.1

/-- Claim C10 at a query for `example.com` through the proxy `p.example`
with the host header `front.example`. -/
theorem resolveObliviousQuery_host_override_witness :
    ∃ pu u r0 sent rest,
      Parse (str "https://" ++ (if true then str "p.example" else str "example.com")) = .ok pu ∧
      (if true then buildOdohProxyURL (str "p.example") (str "example.com")
        else buildOdohTargetURL (str "example.com")) = .ret u ∧
      u.Host = pu.Host ∧
      (testLib (echo 200 OBLIVIOUS_DOH_CONTENT_TYPE)).NewRequest MethodPost
        ((testLib (echo 200 OBLIVIOUS_DOH_CONTENT_TYPE)).urlString u)
        ((testLib (echo 200 OBLIVIOUS_DOH_CONTENT_TYPE)).Marshal (str "hello"))
          = (some r0, none) ∧
      (resolveObliviousQuery (testLib (echo 200 OBLIVIOUS_DOH_CONTENT_TYPE)) freshWorld
        (str "hello") true (str "example.com") (str "p.example")
        (str "front.example")).1.trace
        = freshWorld.trace ++ .clientDo { CheckRedirect := some neverFollow } sent :: rest ∧
      sent.URL = r0.URL ∧ sent.Host = str "front.example" ∧
      (r0.URL.Host = u.Host → sent.URL.Host = pu.Host) :=
  resolveObliviousQuery_host_override (testLib (echo 200 OBLIVIOUS_DOH_CONTENT_TYPE))
    freshWorld (str "hello") true (str "example.com") (str "p.example") (str "front.example")
    (proxiedRequest (str "hello")) (by decide!)

/-- Claim C6 at a network on which the exchange fails: `sendODoHRequest`
stops with a nil dereference and returns no error. -/
theorem transport_error_stops_at_nil_response_witness :
    (sendODoHRequest (testLib unreachable) freshWorld (str "hello") ⟨[⟨1, ()⟩]⟩ false
      (str "example.com") (str "p.example") (str "front.example")).2
      = .crash .nilDereference :=
  (transport_error_stops_at_nil_response (testLib unreachable) freshWorld (str "hello") false
    (str "example.com") (str "p.example") (str "front.example")
    (directRequest (str "hello")) (.errorf (str "dial tcp: connection refused"))
    (by decide!) (by decide!)).2 (str "hello") ⟨1, ()⟩ [] (str "hello") rfl

/-- Claim C2 as stated fails for a query that is no DNS message: the two
bytes `hi` are encrypted, echoed under the protocol content type, unmarshalled
and opened by the paired context to `hi` again, and `sendODoHRequest` returns
the unpacking error and no message. -/
theorem sendODoHRequest_echo_undecodable :
    (testLib (echo 200 OBLIVIOUS_DOH_CONTENT_TYPE)).EncryptQuery ()
        ((testLib (echo 200 OBLIVIOUS_DOH_CONTENT_TYPE)).CreateObliviousDNSQuery (str "hi") 0)
      = (str "hi", str "hi", none) ∧
    echo 200 OBLIVIOUS_DOH_CONTENT_TYPE
        { directRequest (str "hi") with Host := str "front.example" }
      = (some ⟨200, [(str "Content-Type", [OBLIVIOUS_DOH_CONTENT_TYPE])], (str "hi", none)⟩,
          none) ∧
    (testLib (echo 200 OBLIVIOUS_DOH_CONTENT_TYPE)).UnmarshalDNSMessage (str "hi")
      = (str "hi", none) ∧
    (testLib (echo 200 OBLIVIOUS_DOH_CONTENT_TYPE)).OpenAnswer (str "hi") (str "hi")
      = (str "hi", none) ∧
    (sendODoHRequest (testLib (echo 200 OBLIVIOUS_DOH_CONTENT_TYPE)) freshWorld (str "hi")
      ⟨[⟨1, ()⟩]⟩ false (str "example.com") (str "p.example") (str "front.example")).2
      = .ret (none, some (.errorf (str "dns: overflow unpacking uint16"))) := by
  refine ⟨rfl, rfl, rfl, by decide!, by decide!⟩

/-- Claim C2 (amended) at a query of 13 bytes echoed by the responder. -/
theorem sendODoHRequest_echo_witness :
    (sendODoHRequest (testLib (echo 200 OBLIVIOUS_DOH_CONTENT_TYPE)) freshWorld
      (str "hello, world!") ⟨[⟨1, ()⟩]⟩ false (str "example.com") (str "p.example")
      (str "front.example")).2
      = .ret (match parseDnsResponse (testLib (echo 200 OBLIVIOUS_DOH_CONTENT_TYPE))
            (str "hello, world!") with
          | (_, some err) => (none, some err)
          | (dnsResponse, none) => (some dnsResponse, none)) :=
  (sendODoHRequest_echo (testLib (echo 200 OBLIVIOUS_DOH_CONTENT_TYPE)) freshWorld
    (str "hello, world!") ⟨1, ()⟩ [] false (str "example.com") (str "p.example")
    (str "front.example") (str "hello, world!") (str "hello, world!")
    (directRequest (str "hello, world!"))
    ⟨200, [(str "Content-Type", [OBLIVIOUS_DOH_CONTENT_TYPE])], (str "hello, world!", none)⟩
    (str "hello, world!") (str "hello, world!")
    rfl (by decide!) (by decide!) (by decide!) rfl rfl (by decide!)).1

/-- Claim C7 as stated fails for the target `bad host`: `url.Parse` rejects
it, and `prepareHttpRequest`, `resolveObliviousQuery` and `sendODoHRequest` end
in `log.Fatalf`; none of them returns an error value. -/
theorem prepareHttpRequest_unparsable_target :
    Parse (str "https://" ++ str "bad host") = .error (.invalidHost (str " ")) ∧
    prepareHttpRequest (testLib unreachable) (str "hello") false (str "bad host")
      (str "p.example") = .fatal (.invalidHost (str " ")) ∧
    (resolveObliviousQuery (testLib unreachable) freshWorld (str "hello") false
      (str "bad host") (str "p.example") (str "front.example")).2
      = .fatal (.invalidHost (str " ")) ∧
    (sendODoHRequest (testLib unreachable) freshWorld (str "hello") ⟨[⟨1, ()⟩]⟩ false
      (str "bad host") (str "p.example") (str "front.example")).2
      = .fatal (.invalidHost (str " ")) := by
  refine ⟨by decide!, by decide!, by decide!, by decide!⟩

/-- Claim C7 (amended) at the proxy address `p.example:https`, whose port is
no number. -/
theorem url_construction_failure_is_fatal_witness :
    (resolveObliviousQuery (testLib unreachable) freshWorld (str "hello") true
      (str "example.com") (str "p.example:https") (str "front.example")).2
      = .fatal (.invalidPort (str ":https")) :=
  congrArg Prod.snd
    (url_construction_failure_is_fatal (testLib unreachable) freshWorld (str "hello") true
      (str "example.com") (str "p.example:https") (str "front.example")
      (.invalidPort (str ":https")) (Or.inr (Or.inl ⟨rfl, by decide!⟩))).2.1

end ExchangeExamples
end ODoH
